import Mathlib

/-!
# TilingPuzzleSDL2: board, selection and phase logic

A shallow embedding of `TilingPuzzleSDL2.cpp`.  The process-wide variables of the
program are gathered in the record `Game`; every function of the source that reads or
writes them becomes a function on `Game`.

Conventions of the embedding:

* `int` / `Sint32` values are `Int`.  All coordinates the program builds lie in
  `0 .. 500` and `puzzleCurrent` is bounded by the number of loaded textures, so no
  wrap-around is modelled.
* `std::vector::operator[]` outside the vector is undefined behaviour; the handlers
  return `none` when the source would perform such an access.
* `std::shuffle` draws from a time-seeded engine.  The values drawn are an explicit
  argument (`ShuffleDraws`), the permutation is built by the usual exchange loop; every
  outcome is a permutation (`shuffle_perm`) and every permutation is an outcome
  (`shuffle_reaches`).
* `SDL_PollEvent` is the input: the handlers take the polled `SDL_Event` as argument.
* Window, renderer, surfaces and frame pacing carry no game state and are left out.
  `renderUpdate` writes no variable; it is kept as the list of its `SDL_RenderCopy` calls
  because its subscripts can fall outside a vector.  `mainLoop` runs the handlers alone,
  `mainRun` runs them with the frame that follows each of them; every state `mainRun`
  reaches, `mainLoop` reaches too (`mainRun_inv`).
-/

namespace TilingPuzzleSDL2

/-! ## Data model -/

/-- The SDL rectangle: position of the top-left corner, width and height. -/
structure SDL_Rect where
  x : Int
  y : Int
  w : Int
  h : Int
deriving DecidableEq, Repr

/-- A texture handle (`std::unique_ptr<SDL_Texture, sdlCleanupTexture>`); only its identity
matters to the game logic. -/
abbrev Texture := Nat

/-- The source's `enum class ProgramState`. -/
inductive ProgramState where
  | STARTUP
  | PLAY
  | TRANSITION
  | SHUTDOWN
deriving DecidableEq, Repr

/-- The source's `enum class MoveState`. -/
inductive MoveState where
  | NONE
  | SELECTED
deriving DecidableEq, Repr

/-- The source's `enum class MiniRefImg`. -/
inductive MiniRefImg where
  | DISPLAY
  | HIDE
deriving DecidableEq, Repr

/-- The fields of `SDL_MouseButtonEvent` the program reads. -/
structure SDL_MouseButtonEvent where
  button : Nat
  x : Int
  y : Int
deriving DecidableEq, Repr

/-- The polled event, by its `type` field.  `other` stands for every event type
that the two handlers have no `case` for. -/
inductive SDL_Event where
  | quit
  | mouseButtonDown (button : SDL_MouseButtonEvent)
  | mouseButtonUp (button : SDL_MouseButtonEvent)
  | keyUp (sym : Int)
  | other
deriving DecidableEq, Repr

/-- SDL's `SDL_BUTTON_LEFT`. -/
def SDL_BUTTON_LEFT : Nat := 1
/-- SDL's `SDL_BUTTON_MIDDLE`. -/
def SDL_BUTTON_MIDDLE : Nat := 2
/-- SDL's `SDL_BUTTON_RIGHT`. -/
def SDL_BUTTON_RIGHT : Nat := 3
/-- SDL's `SDLK_s`, the character code of `s`. -/
def SDLK_s : Int := 115
/-- SDL's `SDLK_SPACE`, the character code of the blank. -/
def SDLK_SPACE : Int := 32

/-- The constant `puzzlePieceSize` of the source, the edge of a tile in pixels. -/
def puzzlePieceSize : Int := 100
/-- The constant `puzzlePiecesTotal` of the source, the number of tiles. -/
def puzzlePiecesTotal : Nat := 16

/-- The global variables of the program. -/
structure Game where
  mouseClicked : Bool
  puzzleCompleteRect : SDL_Rect
  selectedI : Int
  dstImgCoords : List SDL_Rect
  dstImgCoordsOriginal : List SDL_Rect
  srcImgBase : List SDL_Rect
  puzzleTextures : List Texture
  puzzleCurrent : Int
  miniRefImgRect : SDL_Rect
  programState : ProgramState
  moveState : MoveState
  miniRefImg : MiniRefImg
deriving DecidableEq, Repr

/-- The values drawn from the random engine by the two shuffles of one handler call:
`puzzles` feeds `shufflePuzzles`, `pieces` feeds `shufflePuzzlePieces`. -/
structure ShuffleDraws where
  puzzles : List Nat
  pieces : List Nat
deriving DecidableEq, Repr

/-- A value-initialised `SDL_Rect`. -/
def zeroRect : SDL_Rect := { x := 0, y := 0, w := 0, h := 0 }

/-- The globals as their initialisers leave them, before `main` runs. -/
def initialGame : Game :=
  { mouseClicked := false
    puzzleCompleteRect := zeroRect
    selectedI := -1
    dstImgCoords := List.replicate puzzlePiecesTotal zeroRect
    dstImgCoordsOriginal := List.replicate puzzlePiecesTotal zeroRect
    srcImgBase := List.replicate puzzlePiecesTotal zeroRect
    puzzleTextures := []
    puzzleCurrent := 0
    miniRefImgRect := zeroRect
    programState := ProgramState.STARTUP
    moveState := MoveState.NONE
    miniRefImg := MiniRefImg.HIDE }

/-! ## Library routines used by the source -/

/-- Exchange of two positions of a sequence that are both inside it (the `iter_swap`
of the shuffle loop). -/
def iterSwap {α : Type} (v : List α) (i j : Nat) : List α :=
  match v[i]?, v[j]? with
  | some a, some b => (v.set i b).set j a
  | _, _ => v

/-- The exchange loop of `std::shuffle`, running from position `i` down to position 1:
position `i` is exchanged with a position drawn in `0 .. i`.  A missing draw counts as 0. -/
def shuffleLoop {α : Type} : Nat → List Nat → List α → List α
  | 0, _, v => v
  | i + 1, draws, v =>
    shuffleLoop i draws.tail (iterSwap v (i + 1) (draws.headD 0 % (i + 2)))

/-- The call `std::shuffle(v.begin(), v.end(), engine)`, with the engine's values given. -/
def shuffle {α : Type} (draws : List Nat) (v : List α) : List α :=
  shuffleLoop (v.length - 1) draws v

/-- The call `std::swap(v[i], v[j])` on a vector, `i` an index of the scan and `j` an `int`.
Undefined (`none`) when one of the two subscripts is outside the vector. -/
def swapAt (v : List SDL_Rect) (i : Nat) (j : Int) : Option (List SDL_Rect) :=
  if j < 0 then none
  else
    match v[i]?, v[j.toNat]? with
    | some a, some b => some ((v.set i b).set j.toNat a)
    | _, _ => none

/-! ## The functions of the source -/

/-- Source `mouseWithinRectBound`, lines 399-409. -/
def mouseWithinRectBound (btn : SDL_MouseButtonEvent) (rect : SDL_Rect) : Bool :=
  if btn.x ≥ rect.x ∧
      btn.x ≤ rect.x + rect.w ∧
      btn.y ≥ rect.y ∧
      btn.y ≤ rect.y + rect.h then
    true
  else
    false

/-- The loop of `puzzleSolved` from index `rectI`, with `fuel` iterations left
(`fuel = puzzlePiecesTotal - rectI`). -/
def puzzleSolvedLoop (g : Game) : Nat → Nat → Option Bool
  | 0, _ => some true
  | fuel + 1, rectI =>
    match g.dstImgCoordsOriginal[rectI]?, g.dstImgCoords[rectI]? with
    | some o, some d =>
      if o.x ≠ d.x ∨ o.y ≠ d.y then some false
      else puzzleSolvedLoop g fuel (rectI + 1)
    | _, _ => none

/-- Source `puzzleSolved`, lines 411-422. -/
def puzzleSolved (g : Game) : Option Bool :=
  puzzleSolvedLoop g puzzlePiecesTotal 0

/-- Source `shufflePuzzles`, lines 424-428. -/
def shufflePuzzles (draws : List Nat) (g : Game) : Game :=
  { g with puzzleTextures := shuffle draws g.puzzleTextures }

/-- Source `shufflePuzzlePieces`, lines 430-434. -/
def shufflePuzzlePieces (draws : List Nat) (g : Game) : Game :=
  { g with dstImgCoords := shuffle draws g.dstImgCoords }

/-- The body of the hit branch of the left-click scan, lines 260-287: the `switch` on
`moveState` executed for the slot `rectI` that contains the pointer. -/
def onTileHit (rectI : Nat) (g : Game) : Option Game :=
  match g.moveState with
  | MoveState.NONE =>
    some { g with selectedI := (rectI : Int), moveState := MoveState.SELECTED }
  | MoveState.SELECTED =>
    if (rectI : Int) ≠ g.selectedI then
      match swapAt g.dstImgCoords rectI g.selectedI with
      | none => none
      | some v =>
        let g1 := { g with dstImgCoords := v, selectedI := -1, moveState := MoveState.NONE }
        match puzzleSolved g1 with
        | none => none
        | some true =>
          some { g1 with mouseClicked := false, programState := ProgramState.TRANSITION }
        | some false => some g1
    else
      some { g with selectedI := -1, moveState := MoveState.NONE }

/-- The `for` loop of the left-click branch, lines 256-290, from index `rectI` with
`fuel` iterations left (`fuel = puzzlePiecesTotal - rectI`).  The first slot that contains
the pointer is handled and ends the loop. -/
def leftClickScan (btn : SDL_MouseButtonEvent) (g : Game) : Nat → Nat → Option Game
  | 0, _ => some g
  | fuel + 1, rectI =>
    match g.dstImgCoords[rectI]? with
    | none => none
    | some rect =>
      if mouseWithinRectBound btn rect then onTileHit rectI g
      else leftClickScan btn g fuel (rectI + 1)

/-- Source `eventsCheckPlay`, lines 240-338, on the polled event `sdlEvent`. -/
def eventsCheckPlay (rnd : ShuffleDraws) (sdlEvent : SDL_Event) (g : Game) : Option Game :=
  match sdlEvent with
  | SDL_Event.quit => some { g with programState := ProgramState.SHUTDOWN }
  | SDL_Event.mouseButtonDown btn =>
    if !g.mouseClicked then
      let g1 := { g with mouseClicked := true }
      if btn.button = SDL_BUTTON_LEFT then
        leftClickScan btn g1 puzzlePiecesTotal 0
      else if btn.button = SDL_BUTTON_RIGHT then
        if g1.moveState = MoveState.SELECTED then
          some { g1 with selectedI := -1, moveState := MoveState.NONE }
        else some g1
      else if btn.button = SDL_BUTTON_MIDDLE then
        if g1.miniRefImg = MiniRefImg.DISPLAY then
          some { g1 with miniRefImg := MiniRefImg.HIDE }
        else if g1.miniRefImg = MiniRefImg.HIDE then
          some { g1 with miniRefImg := MiniRefImg.DISPLAY }
        else some g1
      else some g1
    else some g
  | SDL_Event.mouseButtonUp _ => some { g with mouseClicked := false }
  | SDL_Event.keyUp keyReleased =>
    if keyReleased = SDLK_s then
      let g1 :=
        if g.puzzleCurrent + 1 = (g.puzzleTextures.length : Int) then
          { shufflePuzzles rnd.puzzles g with puzzleCurrent := 0 }
        else
          { g with puzzleCurrent := g.puzzleCurrent + 1 }
      let g2 := shufflePuzzlePieces rnd.pieces g1
      some { g2 with selectedI := -1, moveState := MoveState.NONE }
    else some g
  | SDL_Event.other => some g

/-- Source `eventsCheckTransition`, lines 340-372, on the polled event `sdlEvent`. -/
def eventsCheckTransition (rnd : ShuffleDraws) (sdlEvent : SDL_Event) (g : Game) : Game :=
  match sdlEvent with
  | SDL_Event.quit => { g with programState := ProgramState.SHUTDOWN }
  | SDL_Event.keyUp keyReleased =>
    if keyReleased = SDLK_SPACE then
      let g1 :=
        if g.puzzleCurrent + 1 = (g.puzzleTextures.length : Int) then
          { shufflePuzzles rnd.puzzles g with puzzleCurrent := 0 }
        else
          { g with puzzleCurrent := g.puzzleCurrent + 1 }
      let g2 := shufflePuzzlePieces rnd.pieces g1
      { g2 with programState := ProgramState.PLAY }
    else g
  | _ => g

/-- The loop "Set src coords" of `programStartup`, lines 165-188, over the remaining
elements of `srcImgBase`, with the current values of the three loop variables. -/
def setSrcCoords : List SDL_Rect → Int → Int → Int → List SDL_Rect
  | [], _, _, _ => []
  | rect :: rest, xOffset, yOffset, rowCount =>
    let rect1 := { rect with w := puzzlePieceSize, h := puzzlePieceSize, x := xOffset, y := yOffset }
    if rowCount ≥ 3 then
      rect1 :: setSrcCoords rest 0 (yOffset + puzzlePieceSize) 0
    else
      rect1 :: setSrcCoords rest (xOffset + puzzlePieceSize) yOffset (rowCount + 1)

/-- The loop "Set dst coords" of `programStartup`, lines 197-215, over the remaining
elements of `dstImgCoords`, with the board offset and the three loop variables. -/
def setDstCoords (boardOffsetX boardOffsetY : Int) :
    List SDL_Rect → Int → Int → Int → List SDL_Rect
  | [], _, _, _ => []
  | rect :: rest, xOffset, yOffset, rowCount =>
    let rect1 := { rect with w := puzzlePieceSize, h := puzzlePieceSize,
                             x := xOffset + boardOffsetX, y := yOffset + boardOffsetY }
    if rowCount ≥ 4 then
      rect1 :: setDstCoords boardOffsetX boardOffsetY rest 0 (yOffset + puzzlePieceSize) 1
    else
      rect1 :: setDstCoords boardOffsetX boardOffsetY rest (xOffset + puzzlePieceSize) yOffset
        (rowCount + 1)

/-- Source `programStartup` up to line 228, just before the two shuffles: the textures
found in the puzzle directory (`loaded`, in enumeration order) are appended to
`puzzleTextures` and the geometry tables are filled. -/
def programStartupTables (loaded : List Texture) (g : Game) : Game :=
  let dst := setDstCoords 100 20 g.dstImgCoords 0 0 1
  { g with
    puzzleTextures := g.puzzleTextures ++ loaded
    srcImgBase := setSrcCoords g.srcImgBase 0 0 0
    dstImgCoords := dst
    dstImgCoordsOriginal := dst
    miniRefImgRect := { w := puzzlePieceSize, h := puzzlePieceSize, x := 100, y := 450 }
    puzzleCompleteRect := { w := 300, h := 100, x := 200, y := 450 } }

/-- Source `programStartup`, lines 129-233. -/
def programStartup (loaded : List Texture) (rnd : ShuffleDraws) (g : Game) : Game :=
  let g1 := programStartupTables loaded g
  let g2 := shufflePuzzles rnd.puzzles g1
  let g3 := shufflePuzzlePieces rnd.pieces g2
  { g3 with programState := ProgramState.PLAY }

/-- The body of the `while` loop of `main`, lines 96-121: one pass, in which the handler of
the current phase receives the polled event.  The startup pass polls no event; the
`switch` has no case for `SHUTDOWN`. -/
def mainLoopBody (loaded : List Texture) (rnd : ShuffleDraws) (sdlEvent : SDL_Event)
    (g : Game) : Option Game :=
  match g.programState with
  | ProgramState.STARTUP => some (programStartup loaded rnd g)
  | ProgramState.PLAY => eventsCheckPlay rnd sdlEvent g
  | ProgramState.TRANSITION => some (eventsCheckTransition rnd sdlEvent g)
  | ProgramState.SHUTDOWN => some g

/-- The `while` loop of `main`, lines 94-122, over the inputs of its successive passes.
The loop is left as soon as the phase is `SHUTDOWN`. -/
def mainLoop (loaded : List Texture) : List (ShuffleDraws × SDL_Event) → Game → Option Game
  | [], g => some g
  | (rnd, sdlEvent) :: rest, g =>
    if g.programState = ProgramState.SHUTDOWN then some g
    else
      match mainLoopBody loaded rnd sdlEvent g with
      | none => none
      | some g1 => mainLoop loaded rest g1

/-- The texture handed to one `SDL_RenderCopy` call of `renderUpdate`. -/
inductive DrawTexture where
  | puzzle (t : Texture)
  | selectedOverlay
  | puzzleComplete
deriving DecidableEq, Repr

/-- One `SDL_RenderCopy` call: texture, source rectangle (`none` for `NULL`) and
destination rectangle. -/
structure RenderCopy where
  texture : DrawTexture
  srcrect : Option SDL_Rect
  dstrect : SDL_Rect
deriving DecidableEq, Repr

/-- The subscript `v[i]` with an `int` index: undefined (`none`) outside the vector. -/
def atInt {α : Type} (v : List α) (i : Int) : Option α :=
  if i < 0 then none else v[i.toNat]?

/-- The tile loop of `renderUpdate`, lines 377-380, from index `i` with `fuel` iterations
left (`fuel = puzzlePiecesTotal - i`). -/
def renderTilesLoop (g : Game) : Nat → Nat → Option (List RenderCopy)
  | 0, _ => some []
  | fuel + 1, i =>
    match atInt g.puzzleTextures g.puzzleCurrent, g.srcImgBase[i]?, g.dstImgCoords[i]? with
    | some t, some src, some dst =>
      match renderTilesLoop g fuel (i + 1) with
      | none => none
      | some rest =>
        some ({ texture := DrawTexture.puzzle t, srcrect := some src, dstrect := dst } :: rest)
    | _, _, _ => none

/-- Source `renderUpdate`, lines 374-397: the `SDL_RenderCopy` calls of one frame in
order, `none` when a subscript falls outside its vector.  No variable is written. -/
def renderUpdate (g : Game) : Option (List RenderCopy) :=
  match renderTilesLoop g puzzlePiecesTotal 0 with
  | none => none
  | some tiles =>
    let overlay : Option (List RenderCopy) :=
      if g.moveState = MoveState.SELECTED then
        match atInt g.dstImgCoords g.selectedI with
        | none => none
        | some dst =>
          some [{ texture := DrawTexture.selectedOverlay, srcrect := none, dstrect := dst }]
      else some []
    let mini : Option (List RenderCopy) :=
      if g.miniRefImg = MiniRefImg.DISPLAY then
        match atInt g.puzzleTextures g.puzzleCurrent with
        | none => none
        | some t =>
          some [{ texture := DrawTexture.puzzle t, srcrect := none,
                  dstrect := g.miniRefImgRect }]
      else some []
    let banner : List RenderCopy :=
      if g.programState = ProgramState.TRANSITION then
        [{ texture := DrawTexture.puzzleComplete, srcrect := none,
           dstrect := g.puzzleCompleteRect }]
      else []
    match overlay, mini with
    | some o, some m => some (tiles ++ o ++ m ++ banner)
    | _, _ => none

/-- The body of the `while` loop of `main` with its call of `renderUpdate`: the pass of
`mainLoopBody`, followed in the Play and Transition cases by the frame drawn from the
state the handler left. -/
def mainLoopPass (loaded : List Texture) (rnd : ShuffleDraws) (sdlEvent : SDL_Event)
    (g : Game) : Option Game :=
  match g.programState with
  | ProgramState.STARTUP => some (programStartup loaded rnd g)
  | ProgramState.PLAY =>
    match eventsCheckPlay rnd sdlEvent g with
    | none => none
    | some g1 =>
      match renderUpdate g1 with
      | none => none
      | some _ => some g1
  | ProgramState.TRANSITION =>
    match renderUpdate (eventsCheckTransition rnd sdlEvent g) with
    | none => none
    | some _ => some (eventsCheckTransition rnd sdlEvent g)
  | ProgramState.SHUTDOWN => some g

/-- The `while` loop of `main` with rendering, over the inputs of its successive passes:
`none` as soon as a handler or a frame makes an out-of-range access. -/
def mainRun (loaded : List Texture) : List (ShuffleDraws × SDL_Event) → Game → Option Game
  | [], g => some g
  | (rnd, sdlEvent) :: rest, g =>
    if g.programState = ProgramState.SHUTDOWN then some g
    else
      match mainLoopPass loaded rnd sdlEvent g with
      | none => none
      | some g1 => mainRun loaded rest g1

/-- The key that triggers the advance step in the phase of `g`: the continue key (space)
in Transition, the skip key (`s`) otherwise. -/
def advanceKey (g : Game) : SDL_Event :=
  if g.programState = ProgramState.TRANSITION then SDL_Event.keyUp SDLK_SPACE
  else SDL_Event.keyUp SDLK_s

/-- Consecutive advance steps: passes of the loop body of `main` in which the polled event
is each time the advance key of the current phase; one element of draws per pass. -/
def advanceRun (loaded : List Texture) : List ShuffleDraws → Game → Option Game
  | [], g => some g
  | rnd :: rest, g =>
    match mainLoopBody loaded rnd (advanceKey g) g with
    | none => none
    | some g1 => advanceRun loaded rest g1

/-! ## Vocabulary of the specification -/

/-- Slot `j` is the first slot of `v`, in index order, that `mouseWithinRectBound` accepts
for the pointer of `btn`. -/
def FirstHit (btn : SDL_MouseButtonEvent) (v : List SDL_Rect) (j : Nat) : Prop :=
  ∃ hj : j < v.length,
    mouseWithinRectBound btn v[j] = true ∧
    ∀ i (hi : i < j), mouseWithinRectBound btn v[i] = false

instance (btn : SDL_MouseButtonEvent) (v : List SDL_Rect) (j : Nat) :
    Decidable (FirstHit btn v j) := by
  unfold FirstHit; infer_instance

/-- No slot of `v` is accepted by `mouseWithinRectBound` for the pointer of `btn`. -/
def NoHit (btn : SDL_MouseButtonEvent) (v : List SDL_Rect) : Prop :=
  ∀ r ∈ v, mouseWithinRectBound btn r = false

instance (btn : SDL_MouseButtonEvent) (v : List SDL_Rect) : Decidable (NoHit btn v) := by
  unfold NoHit; infer_instance

/-- The specification's containment test, inclusive on all four edges. -/
def Contains (rect : SDL_Rect) (px py : Int) : Prop :=
  rect.x ≤ px ∧ px ≤ rect.x + rect.w ∧ rect.y ≤ py ∧ py ≤ rect.y + rect.h

instance (rect : SDL_Rect) (px py : Int) : Decidable (Contains rect px py) := by
  unfold Contains; infer_instance

/-- The event `ev` is a left click that performs a swap in state `g`: the path condition of
line 269, that is a left button press taken while `mouseClicked` is false, with a tile
selected, whose first hit slot is not the selected one. -/
def SwapClick (g : Game) (ev : SDL_Event) : Prop :=
  ∃ btn j, ev = SDL_Event.mouseButtonDown btn ∧ btn.button = SDL_BUTTON_LEFT ∧
    g.mouseClicked = false ∧ g.moveState = MoveState.SELECTED ∧
    FirstHit btn g.dstImgCoords j ∧ (j : Int) ≠ g.selectedI

/-- The specification's geometry table: rectangle `i` of a row-major grid of tiles of size
`T`, `W` tiles wide, with board offset `(ox, oy)`. -/
def gridRect (T : Int) (W : Nat) (ox oy : Int) (i : Nat) : SDL_Rect :=
  { x := ox + ((i % W : Nat) : Int) * T, y := oy + ((i / W : Nat) : Int) * T, w := T, h := T }

/-- The specification's `advance()` as a relation between the library before (`g`) and
after (`g'`): the index is incremented without a shuffle when the next index exists,
otherwise the library is shuffled and the index reset to 0. -/
def Advanced (rnd : ShuffleDraws) (g g' : Game) : Prop :=
  (g.puzzleCurrent + 1 < (g.puzzleTextures.length : Int) →
    g'.puzzleCurrent = g.puzzleCurrent + 1 ∧ g'.puzzleTextures = g.puzzleTextures) ∧
  (¬ (g.puzzleCurrent + 1 < (g.puzzleTextures.length : Int)) →
    g'.puzzleCurrent = 0 ∧ g'.puzzleTextures = shuffle rnd.puzzles g.puzzleTextures)

/-- The specification's reference layout: the 4x4 grid with `T = 100` and board offset
(100, 20), in row-major order. -/
def referenceLayout : List SDL_Rect :=
  (List.range puzzlePiecesTotal).map (gridRect 100 4 100 20)

/-- The two selection variables agree and the selection is valid: nothing selected with
`selectedI = -1`, or a tile selected with `0 ≤ selectedI < 16`. -/
def SelOK (g : Game) : Prop :=
  (g.moveState = MoveState.NONE ∧ g.selectedI = -1) ∨
  (g.moveState = MoveState.SELECTED ∧ 0 ≤ g.selectedI ∧
    g.selectedI < (puzzlePiecesTotal : Int))

instance (g : Game) : Decidable (SelOK g) := by
  unfold SelOK; infer_instance

/-- The board is a rearrangement of the reference layout: `dstImgCoordsOriginal` is the
reference layout and `dstImgCoords` is a permutation of it. -/
def BoardOK (g : Game) : Prop :=
  g.dstImgCoordsOriginal = referenceLayout ∧ g.dstImgCoords.Perm g.dstImgCoordsOriginal

/-- The current index is an index of the library. -/
def LibOK (g : Game) : Prop :=
  0 ≤ g.puzzleCurrent ∧ g.puzzleCurrent < (g.puzzleTextures.length : Int)

/-- The point `(px, py)` lies strictly inside `rect`, off all four edges. -/
def StrictlyInside (rect : SDL_Rect) (px py : Int) : Prop :=
  rect.x < px ∧ px < rect.x + rect.w ∧ rect.y < py ∧ py < rect.y + rect.h

instance (rect : SDL_Rect) (px py : Int) : Decidable (StrictlyInside rect px py) := by
  unfold StrictlyInside; infer_instance

/-- The point `(px, py)` lies on one of the four edge lines of `rect`. -/
def OnEdge (rect : SDL_Rect) (px py : Int) : Prop :=
  px = rect.x ∨ px = rect.x + rect.w ∨ py = rect.y ∨ py = rect.y + rect.h

/-- The properties of the state that the handlers maintain: the three vectors have 16
elements, the selection is valid, nothing is selected in the Transition phase, and once
startup is over the board is a rearrangement of the reference layout. -/
def Inv (g : Game) : Prop :=
  g.dstImgCoords.length = puzzlePiecesTotal ∧
  g.dstImgCoordsOriginal.length = puzzlePiecesTotal ∧
  g.srcImgBase.length = puzzlePiecesTotal ∧
  SelOK g ∧
  (g.programState = ProgramState.TRANSITION → g.moveState = MoveState.NONE) ∧
  (g.programState ≠ ProgramState.STARTUP → BoardOK g)

/-- A left button press at the point `(px, py)`. -/
def leftClick (px py : Int) : SDL_Event :=
  SDL_Event.mouseButtonDown { button := SDL_BUTTON_LEFT, x := px, y := py }

/-! ## Sample states -/

/-- No draws: every exchange of a shuffle takes position 0. -/
def noDraws : ShuffleDraws := { puzzles := [], pieces := [] }

/-- The Play-phase state whose board is in reference order, three puzzles loaded. -/
def solvedGame : Game :=
  { programStartupTables [11, 12, 13] initialGame with programState := ProgramState.PLAY }

/-- The state `solvedGame` with tile 3 selected. -/
def selected3Game : Game :=
  { solvedGame with selectedI := 3, moveState := MoveState.SELECTED }

/-- The reference arrangement with the rectangles of slots 3 and 7 exchanged, tile 3
selected. -/
def exchanged37Game : Game :=
  { solvedGame with dstImgCoords := iterSwap solvedGame.dstImgCoords 3 7,
                    selectedI := 3, moveState := MoveState.SELECTED }

/-- A right button press at the point `(px, py)`. -/
def rightClick (px py : Int) : SDL_Event :=
  SDL_Event.mouseButtonDown { button := SDL_BUTTON_RIGHT, x := px, y := py }

/-- A middle button press at the point `(px, py)`. -/
def middleClick (px py : Int) : SDL_Event :=
  SDL_Event.mouseButtonDown { button := SDL_BUTTON_MIDDLE, x := px, y := py }

/-- A button release. -/
def release : SDL_Event :=
  SDL_Event.mouseButtonUp { button := SDL_BUTTON_LEFT, x := 0, y := 0 }

/-- Draws under which the shuffle of the 16 pieces exchanges slots 0 and 1 only, and the
shuffle of three puzzles changes nothing. -/
def nearlySolvedDraws : ShuffleDraws :=
  { puzzles := [2, 1], pieces := [15, 14, 13, 12, 11, 10, 9, 8, 7, 6, 5, 4, 3, 2, 0] }

/-- Inputs that take the program from its initial state to the Transition phase: startup
with slots 0 and 1 exchanged, a click on tile 1, a release, a click on tile 0. -/
def solvingInputs : List (ShuffleDraws × SDL_Event) :=
  [(nearlySolvedDraws, SDL_Event.other), (noDraws, leftClick 150 70), (noDraws, release),
    (noDraws, leftClick 250 70)]

/-! ## Lemmas on the shuffle -/

theorem iterSwap_perm {α : Type} [DecidableEq α] (v : List α) (i j : Nat) :
    (iterSwap v i j).Perm v := by
  unfold iterSwap
  cases hi : v[i]? with
  | none => exact List.Perm.refl _
  | some a =>
    cases hj : v[j]? with
    | none => exact List.Perm.refl _
    | some b =>
      obtain ⟨hil, hia⟩ := List.getElem?_eq_some.1 hi
      obtain ⟨hjl, hjb⟩ := List.getElem?_eq_some.1 hj
      show ((v.set i b).set j a).Perm v
      rw [List.perm_iff_count]
      intro c
      have hjl2 : j < (v.set i b).length := by rw [List.length_set]; exact hjl
      have hget : (v.set i b)[j] = b := by
        rw [List.getElem_set]
        split
        · rfl
        · exact hjb
      rw [List.count_set _ _ _ _ hjl2, List.count_set _ _ _ _ hil, hget, hia]
      have hle : (if (a == c) = true then 1 else 0) ≤ List.count c v := by
        split
        · rename_i hac
          have : a = c := by simpa using hac
          subst this
          have hmem : a ∈ v := hia ▸ List.getElem_mem hil
          exact List.count_pos_iff.2 hmem
        · exact Nat.zero_le _
      omega

theorem shuffleLoop_perm {α : Type} [DecidableEq α] :
    ∀ (i : Nat) (draws : List Nat) (v : List α), (shuffleLoop i draws v).Perm v := by
  intro i
  induction i with
  | zero => intro draws v; exact List.Perm.refl _
  | succ n ih =>
    intro draws v
    rw [shuffleLoop]
    exact (ih _ _).trans (iterSwap_perm _ _ _)

/-- Whatever the engine draws, the shuffled sequence is a permutation of the given one. -/
theorem shuffle_perm {α : Type} [DecidableEq α] (draws : List Nat) (v : List α) :
    (shuffle draws v).Perm v :=
  shuffleLoop_perm _ _ _

theorem shuffle_length {α : Type} [DecidableEq α] (draws : List Nat) (v : List α) :
    (shuffle draws v).length = v.length :=
  (shuffle_perm draws v).length_eq

theorem iterSwap_length {α : Type} (v : List α) (i j : Nat) :
    (iterSwap v i j).length = v.length := by
  unfold iterSwap
  split <;> simp

theorem iterSwap_append {α : Type} (p s : List α) (a b : Nat) (ha : a < p.length)
    (hb : b < p.length) : iterSwap (p ++ s) a b = iterSwap p a b ++ s := by
  unfold iterSwap
  rw [List.getElem?_append_left ha, List.getElem?_append_left hb,
    List.getElem?_eq_getElem ha, List.getElem?_eq_getElem hb]
  simp only
  rw [List.set_append_left _ _ ha, List.set_append_left _ _ (by rw [List.length_set]; exact hb)]

theorem shuffleLoop_append {α : Type} :
    ∀ (i : Nat) (draws : List Nat) (p s : List α), i < p.length →
      shuffleLoop i draws (p ++ s) = shuffleLoop i draws p ++ s := by
  intro i
  induction i with
  | zero => intro draws p s _; rfl
  | succ n ih =>
    intro draws p s hi
    rw [shuffleLoop, shuffleLoop]
    have hb : draws.headD 0 % (n + 2) < p.length := by
      have := Nat.mod_lt (draws.headD 0) (show 0 < n + 2 by omega)
      omega
    rw [iterSwap_append p s (n + 1) _ hi hb]
    exact ih _ _ _ (by rw [iterSwap_length]; omega)

theorem eq_take_concat {α : Type} (l : List α) (m : Nat) (x : α) (hlen : l.length = m + 1)
    (hx : l[m]? = some x) : l = l.take m ++ [x] := by
  have h1 : l.take (m + 1) = l := by rw [← hlen]; exact List.take_length l
  rw [List.take_succ, hx] at h1
  exact h1.symm

theorem shuffleLoop_reaches {α : Type} [DecidableEq α] :
    ∀ (n : Nat) (p t : List α), p.length = n + 1 → t.Perm p →
      ∃ draws, shuffleLoop n draws p = t := by
  intro n
  induction n with
  | zero =>
    intro p t hp ht
    obtain ⟨a, rfl⟩ := List.length_eq_one.1 hp
    exact ⟨[], (List.perm_singleton.1 ht).symm⟩
  | succ n ih =>
    intro p t hp ht
    have htl : t.length = n + 1 + 1 := by rw [ht.length_eq, hp]
    have hn1 : n + 1 < t.length := by omega
    have htx : t[n + 1]? = some t[n + 1] := List.getElem?_eq_getElem hn1
    have ht' := eq_take_concat t (n + 1) _ htl htx
    have hxp : t[n + 1] ∈ p := ht.mem_iff.1 (List.getElem_mem hn1)
    obtain ⟨j, hj, hjx⟩ := List.getElem_of_mem hxp
    have hjm : j % (n + 2) = j := Nat.mod_eq_of_lt (by omega)
    have hlast : n + 1 < p.length := by omega
    have hswap : iterSwap p (n + 1) j = (p.set (n + 1) p[j]).set j p[n + 1] := by
      unfold iterSwap
      rw [List.getElem?_eq_getElem hlast, List.getElem?_eq_getElem hj]
    have hp'len : (iterSwap p (n + 1) j).length = n + 1 + 1 := by rw [iterSwap_length, hp]
    have hp'last : (iterSwap p (n + 1) j)[n + 1]? = some t[n + 1] := by
      rw [hswap, List.getElem?_set]
      by_cases e : j = n + 1
      · subst e
        simp only [if_true, List.length_set, hj, hjx]
      · rw [if_neg e, List.getElem?_set_self hlast, hjx]
    have hp' := eq_take_concat _ (n + 1) _ hp'len hp'last
    have hperm : ((iterSwap p (n + 1) j).take (n + 1)).Perm (t.take (n + 1)) := by
      have h2 : ((iterSwap p (n + 1) j).take (n + 1) ++ [t[n + 1]]).Perm
          (t.take (n + 1) ++ [t[n + 1]]) := by
        rw [← hp', ← ht']
        exact (iterSwap_perm p _ _).trans ht.symm
      exact (List.perm_append_right_iff _).1 h2
    obtain ⟨draws', hd'⟩ := ih ((iterSwap p (n + 1) j).take (n + 1)) (t.take (n + 1))
      (by rw [List.length_take, hp'len]; omega) hperm.symm
    refine ⟨j :: draws', ?_⟩
    rw [shuffleLoop]
    simp only [List.headD_cons, List.tail_cons, hjm]
    rw [hp', shuffleLoop_append _ _ _ _ (by rw [List.length_take, hp'len]; omega), hd']
    exact ht'.symm

/-- Every permutation of a sequence is the outcome of the shuffle for suitable draws. -/
theorem shuffle_reaches {α : Type} [DecidableEq α] (v t : List α) (h : t.Perm v) :
    ∃ draws, shuffle draws v = t := by
  cases hv : v.length with
  | zero =>
    have : v = [] := List.length_eq_zero.1 hv
    subst this
    exact ⟨[], (List.perm_nil.1 h).symm⟩
  | succ n =>
    obtain ⟨draws, hd⟩ := shuffleLoop_reaches n v t hv h
    exact ⟨draws, by rw [shuffle, hv]; exact hd⟩
/-! ## Lemmas on the geometry loops -/

theorem setSrcCoords_eq : ∀ (v : List SDL_Rect) (k : Nat) (xOffset yOffset rowCount : Int),
    rowCount = ((k % 4 : Nat) : Int) → xOffset = ((k % 4 : Nat) : Int) * 100 →
    yOffset = ((k / 4 : Nat) : Int) * 100 →
    setSrcCoords v xOffset yOffset rowCount =
      (List.range' k v.length).map (gridRect 100 4 0 0) := by
  intro v
  induction v with
  | nil => intro k x y rc _ _ _; rfl
  | cons r rest ih =>
    intro k x y rc hrc hx hy
    rw [setSrcCoords]
    simp only [List.length_cons, List.range'_succ, List.map_cons, puzzlePieceSize]
    have hhead : ({ r with w := 100, h := 100, x := x, y := y } : SDL_Rect) =
        gridRect 100 4 0 0 k := by
      simp only [gridRect, SDL_Rect.mk.injEq]
      exact ⟨by omega, by omega, trivial, trivial⟩
    split
    · rw [hhead, ih (k + 1) _ _ _ (by omega) (by omega) (by omega)]
    · rw [hhead, ih (k + 1) _ _ _ (by omega) (by omega) (by omega)]

theorem setDstCoords_eq : ∀ (v : List SDL_Rect) (k : Nat) (xOffset yOffset rowCount : Int),
    rowCount = ((k % 4 : Nat) : Int) + 1 → xOffset = ((k % 4 : Nat) : Int) * 100 →
    yOffset = ((k / 4 : Nat) : Int) * 100 →
    setDstCoords 100 20 v xOffset yOffset rowCount =
      (List.range' k v.length).map (gridRect 100 4 100 20) := by
  intro v
  induction v with
  | nil => intro k x y rc _ _ _; rfl
  | cons r rest ih =>
    intro k x y rc hrc hx hy
    rw [setDstCoords]
    simp only [List.length_cons, List.range'_succ, List.map_cons, puzzlePieceSize]
    have hhead : ({ r with w := 100, h := 100, x := x + 100, y := y + 20 } : SDL_Rect) =
        gridRect 100 4 100 20 k := by
      simp only [gridRect, SDL_Rect.mk.injEq]
      exact ⟨by omega, by omega, trivial, trivial⟩
    split
    · rw [hhead, ih (k + 1) _ _ _ (by omega) (by omega) (by omega)]
    · rw [hhead, ih (k + 1) _ _ _ (by omega) (by omega) (by omega)]

/-! ## Lemmas on the scans -/

theorem leftClickScan_firstHit (btn : SDL_MouseButtonEvent) (g : Game) (j : Nat)
    (h : FirstHit btn g.dstImgCoords j) :
    ∀ fuel rectI, rectI ≤ j → j < rectI + fuel →
      leftClickScan btn g fuel rectI = onTileHit j g := by
  obtain ⟨hj, hhit, hbefore⟩ := h
  intro fuel
  induction fuel with
  | zero => intro rectI h1 h2; omega
  | succ n ih =>
    intro rectI h1 h2
    have hr : rectI < g.dstImgCoords.length := by omega
    rw [leftClickScan, List.getElem?_eq_getElem hr]
    by_cases e : rectI = j
    · subst e
      simp [hhit]
    · have hlt : rectI < j := by omega
      simp only [hbefore rectI hlt]
      exact ih (rectI + 1) (by omega) (by omega)

theorem leftClickScan_noHit (btn : SDL_MouseButtonEvent) (g : Game)
    (h : NoHit btn g.dstImgCoords) :
    ∀ fuel rectI, rectI + fuel ≤ g.dstImgCoords.length →
      leftClickScan btn g fuel rectI = some g := by
  intro fuel
  induction fuel with
  | zero => intro rectI _; rfl
  | succ n ih =>
    intro rectI hlen
    have hr : rectI < g.dstImgCoords.length := by omega
    have hm : mouseWithinRectBound btn g.dstImgCoords[rectI] = false :=
      h _ (List.getElem_mem hr)
    rw [leftClickScan, List.getElem?_eq_getElem hr]
    simp only [hm]
    exact ih (rectI + 1) (by omega)

/-- The loop of `puzzleSolved` returns a verdict when both vectors cover the range. -/
theorem puzzleSolvedLoop_total (g : Game) :
    ∀ fuel rectI, rectI + fuel ≤ g.dstImgCoords.length →
      rectI + fuel ≤ g.dstImgCoordsOriginal.length →
      ∃ b, puzzleSolvedLoop g fuel rectI = some b := by
  intro fuel
  induction fuel with
  | zero => intro rectI _ _; exact ⟨true, rfl⟩
  | succ n ih =>
    intro rectI hd ho
    have h1 : rectI < g.dstImgCoords.length := by omega
    have h2 : rectI < g.dstImgCoordsOriginal.length := by omega
    rw [puzzleSolvedLoop, List.getElem?_eq_getElem h1, List.getElem?_eq_getElem h2]
    by_cases hc : g.dstImgCoordsOriginal[rectI].x ≠ g.dstImgCoords[rectI].x ∨
        g.dstImgCoordsOriginal[rectI].y ≠ g.dstImgCoords[rectI].y
    · exact ⟨false, by simp only [hc, if_true]⟩
    · simp only [hc, if_false]
      exact ih (rectI + 1) (by omega) (by omega)

/-- The loop of `puzzleSolved` answers `true` exactly when every index of the range holds
rectangles with equal `x` and equal `y` in the two vectors. -/
theorem puzzleSolvedLoop_true_iff (g : Game) :
    ∀ fuel rectI, puzzleSolvedLoop g fuel rectI = some true ↔
      ∀ i, rectI ≤ i → i < rectI + fuel →
        ∃ d o, g.dstImgCoords[i]? = some d ∧ g.dstImgCoordsOriginal[i]? = some o ∧
          d.x = o.x ∧ d.y = o.y := by
  intro fuel
  induction fuel with
  | zero =>
    intro rectI
    constructor
    · intro _ i h1 h2; omega
    · intro _; rfl
  | succ n ih =>
    intro rectI
    rw [puzzleSolvedLoop]
    cases ho : g.dstImgCoordsOriginal[rectI]? with
    | none =>
      constructor
      · intro h; simp at h
      · intro h
        obtain ⟨d, o, _, h2, _⟩ := h rectI (le_refl _) (by omega)
        rw [ho] at h2; cases h2
    | some o =>
      cases hd : g.dstImgCoords[rectI]? with
      | none =>
        constructor
        · intro h; simp at h
        · intro h
          obtain ⟨d, o2, h1, _, _⟩ := h rectI (le_refl _) (by omega)
          rw [hd] at h1; cases h1
      | some d =>
        by_cases hc : o.x ≠ d.x ∨ o.y ≠ d.y
        · simp only [hc, if_true]
          constructor
          · intro h; cases h
          · intro h
            obtain ⟨d2, o2, h1, h2, hx, hy⟩ := h rectI (le_refl _) (by omega)
            rw [hd] at h1; rw [ho] at h2
            cases h1; cases h2
            rcases hc with hc | hc
            · exact absurd hx.symm hc
            · exact absurd hy.symm hc
        · simp only [hc, if_false]
          rw [ih (rectI + 1)]
          have hxy : d.x = o.x ∧ d.y = o.y := by
            constructor
            · by_contra hne; exact hc (Or.inl (fun e => hne e.symm))
            · by_contra hne; exact hc (Or.inr (fun e => hne e.symm))
          constructor
          · intro h i h1 h2
            by_cases e : i = rectI
            · subst e; exact ⟨d, o, hd, ho, hxy.1, hxy.2⟩
            · exact h i (by omega) (by omega)
          · intro h i h1 h2
            exact h i (by omega) (by omega)

/-- The verdict of `puzzleSolved` is a function of the two slot vectors alone. -/
theorem puzzleSolvedLoop_congr (g g2 : Game) (hd : g2.dstImgCoords = g.dstImgCoords)
    (ho : g2.dstImgCoordsOriginal = g.dstImgCoordsOriginal) :
    ∀ fuel rectI, puzzleSolvedLoop g2 fuel rectI = puzzleSolvedLoop g fuel rectI := by
  intro fuel
  induction fuel with
  | zero => intro rectI; rfl
  | succ n ih =>
    intro rectI
    rw [puzzleSolvedLoop, puzzleSolvedLoop, hd, ho]
    simp only [ih]

theorem swapAt_inside (v : List SDL_Rect) (i s : Nat) (hi : i < v.length)
    (hs : s < v.length) :
    swapAt v i (s : Int) = some ((v.set i v[s]).set s v[i]) := by
  have hneg : ¬ ((s : Int) < 0) := by omega
  simp [swapAt, hneg, List.getElem?_eq_getElem hi, List.getElem?_eq_getElem hs]

/-- The hit branch with a selection `s` and a different hit slot `j`: the exchange is
defined, the solved check returns a verdict `b`, and the phase changes exactly when `b` is
`true`. -/
theorem onTileHit_swap (g : Game) (j s : Nat)
    (hd : g.dstImgCoords.length = puzzlePiecesTotal)
    (ho : g.dstImgCoordsOriginal.length = puzzlePiecesTotal)
    (hsel : g.moveState = MoveState.SELECTED) (hs : g.selectedI = (s : Int))
    (hj : j < g.dstImgCoords.length) (hs16 : s < g.dstImgCoords.length) (hne : j ≠ s) :
    ∃ g' b, onTileHit j g = some g' ∧ puzzleSolved g' = some b ∧
      g'.dstImgCoords = (g.dstImgCoords.set j g.dstImgCoords[s]).set s g.dstImgCoords[j] ∧
      g'.selectedI = -1 ∧ g'.moveState = MoveState.NONE ∧
      g'.programState = (if b = true then ProgramState.TRANSITION else g.programState) ∧
      g'.mouseClicked = (if b = true then false else g.mouseClicked) ∧
      g'.dstImgCoordsOriginal = g.dstImgCoordsOriginal ∧
      g'.puzzleTextures = g.puzzleTextures ∧ g'.puzzleCurrent = g.puzzleCurrent ∧
      g'.miniRefImg = g.miniRefImg ∧ g'.srcImgBase = g.srcImgBase := by
  obtain ⟨b, hb⟩ := puzzleSolvedLoop_total
    { g with dstImgCoords := (g.dstImgCoords.set j g.dstImgCoords[s]).set s g.dstImgCoords[j],
             selectedI := -1, moveState := MoveState.NONE } puzzlePiecesTotal 0
    (by simp [hd]) (by simp [ho])
  have hne2 : ¬ ((j : Int) = (s : Int)) := by omega
  have hstep : onTileHit j g = some
      (if b = true then
        { g with dstImgCoords := (g.dstImgCoords.set j g.dstImgCoords[s]).set s
                   g.dstImgCoords[j],
                 selectedI := -1, moveState := MoveState.NONE,
                 mouseClicked := false, programState := ProgramState.TRANSITION }
      else
        { g with dstImgCoords := (g.dstImgCoords.set j g.dstImgCoords[s]).set s
                   g.dstImgCoords[j],
                 selectedI := -1, moveState := MoveState.NONE }) := by
    unfold onTileHit
    rw [hsel]
    simp only [hs, ne_eq, hne2, not_false_eq_true, if_true, swapAt_inside _ j s hj hs16,
      puzzleSolved]
    rw [hb]
    cases b <;> simp
  cases b
  · refine ⟨_, false, hstep, ?_, ?_⟩
    · simpa [puzzleSolved] using hb
    · simp
  · refine ⟨_, true, hstep, ?_, ?_⟩
    · simp only [if_true, puzzleSolved]
      rw [puzzleSolvedLoop_congr _ _ rfl rfl]
      exact hb
    · simp

/-- In the Play phase the loop body runs `eventsCheckPlay`. -/
theorem mainLoopBody_play (loaded : List Texture) (rnd : ShuffleDraws) (ev : SDL_Event)
    (g : Game) (hplay : g.programState = ProgramState.PLAY) :
    mainLoopBody loaded rnd ev g = eventsCheckPlay rnd ev g := by
  simp only [mainLoopBody, hplay]

/-- A left button press with `mouseClicked` false sets the flag and runs the scan. -/
theorem eventsCheckPlay_leftDown (rnd : ShuffleDraws) (btn : SDL_MouseButtonEvent) (g : Game)
    (hmc : g.mouseClicked = false) (hleft : btn.button = SDL_BUTTON_LEFT) :
    eventsCheckPlay rnd (SDL_Event.mouseButtonDown btn) g =
      leftClickScan btn { g with mouseClicked := true } puzzlePiecesTotal 0 := by
  unfold eventsCheckPlay
  rw [hmc]
  simp only [Bool.not_false, if_true, hleft]

/-- A button press while `mouseClicked` is true changes nothing. -/
theorem eventsCheckPlay_down_held (rnd : ShuffleDraws) (btn : SDL_MouseButtonEvent) (g : Game)
    (hmc : g.mouseClicked = true) :
    eventsCheckPlay rnd (SDL_Event.mouseButtonDown btn) g = some g := by
  unfold eventsCheckPlay
  rw [hmc]
  simp

/-- The position `(x, y)` of a rectangle, the part of it that `puzzleSolved` reads. -/
theorem positions_transfer (g g2 : Game) (n : Nat)
    (hmd : g2.dstImgCoords.map (fun r => (r.x, r.y)) =
      g.dstImgCoords.map (fun r => (r.x, r.y)))
    (hmo : g2.dstImgCoordsOriginal.map (fun r => (r.x, r.y)) =
      g.dstImgCoordsOriginal.map (fun r => (r.x, r.y)))
    (h : ∀ i, i < n → ∃ d o, g.dstImgCoords[i]? = some d ∧
      g.dstImgCoordsOriginal[i]? = some o ∧ d.x = o.x ∧ d.y = o.y) :
    ∀ i, i < n → ∃ d o, g2.dstImgCoords[i]? = some d ∧
      g2.dstImgCoordsOriginal[i]? = some o ∧ d.x = o.x ∧ d.y = o.y := by
  intro i hi
  obtain ⟨d, o, h1, h2, hx, hy⟩ := h i hi
  have e1 := congrArg (fun l => l[i]?) hmd
  have e2 := congrArg (fun l => l[i]?) hmo
  simp only [List.getElem?_map, h1, h2, Option.map_some'] at e1 e2
  cases hd2 : g2.dstImgCoords[i]? with
  | none => rw [hd2] at e1; cases e1
  | some d2 =>
    cases ho2 : g2.dstImgCoordsOriginal[i]? with
    | none => rw [ho2] at e2; cases e2
    | some o2 =>
      rw [hd2] at e1; rw [ho2] at e2
      simp only [Option.map_some', Option.some.injEq, Prod.mk.injEq] at e1 e2
      exact ⟨d2, o2, rfl, rfl, by omega, by omega⟩

/-- The verdict `true` of `puzzleSolved`, index by index. -/
theorem puzzleSolved_true_iff (g : Game) :
    puzzleSolved g = some true ↔
      ∀ i, i < puzzlePiecesTotal → ∃ d o, g.dstImgCoords[i]? = some d ∧
        g.dstImgCoordsOriginal[i]? = some o ∧ d.x = o.x ∧ d.y = o.y := by
  have h := puzzleSolvedLoop_true_iff g puzzlePiecesTotal 0
  constructor
  · intro hs i hi
    exact (h.1 hs) i (Nat.zero_le _) (by omega)
  · intro hs
    exact h.2 (fun i _ hi => hs i (by omega))

/-- The first hit slot is unique. -/
theorem FirstHit.unique {btn : SDL_MouseButtonEvent} {v : List SDL_Rect} {j k : Nat}
    (hj : FirstHit btn v j) (hk : FirstHit btn v k) : j = k := by
  obtain ⟨hj1, hj2, hj3⟩ := hj
  obtain ⟨hk1, hk2, hk3⟩ := hk
  rcases Nat.lt_trichotomy j k with h | h | h
  · have := hk3 j h
    rw [hj2] at this; cases this
  · exact h
  · have := hj3 k h
    rw [hk2] at this; cases this

/-- A pointer either misses every slot or has a first hit slot. -/
theorem noHit_or_firstHit (btn : SDL_MouseButtonEvent) (v : List SDL_Rect) :
    NoHit btn v ∨ ∃ j, FirstHit btn v j := by
  by_cases h : ∃ j, ∃ hj : j < v.length, mouseWithinRectBound btn v[j] = true
  · right
    classical
    have hspec := Nat.find_spec h
    obtain ⟨hj, hhit⟩ := hspec
    refine ⟨Nat.find h, hj, hhit, ?_⟩
    intro i hi
    have hmin := Nat.find_min h hi
    have hil : i < v.length := by omega
    cases hm : mouseWithinRectBound btn v[i] with
    | false => rfl
    | true => exact absurd ⟨hil, hm⟩ hmin
  · left
    intro r hr
    obtain ⟨i, hi, rfl⟩ := List.getElem_of_mem hr
    cases hm : mouseWithinRectBound btn v[i] with
    | false => rfl
    | true => exact absurd ⟨i, hi, hm⟩ h

theorem FirstHit.not_noHit {btn : SDL_MouseButtonEvent} {v : List SDL_Rect} {j : Nat}
    (hj : FirstHit btn v j) : ¬ NoHit btn v := by
  intro hn
  obtain ⟨hj1, hj2, -⟩ := hj
  have := hn _ (List.getElem_mem hj1)
  rw [hj2] at this; cases this

/-- The scan of a left click on a 16-slot board: a miss changes nothing, a hit runs the
`switch` on `moveState` for the first hit slot. -/
theorem leftClickScan_cases (btn : SDL_MouseButtonEvent) (g : Game)
    (hd : g.dstImgCoords.length = puzzlePiecesTotal) :
    (NoHit btn g.dstImgCoords ∧ leftClickScan btn g puzzlePiecesTotal 0 = some g) ∨
    (∃ j, FirstHit btn g.dstImgCoords j ∧
      leftClickScan btn g puzzlePiecesTotal 0 = onTileHit j g) := by
  rcases noHit_or_firstHit btn g.dstImgCoords with h | ⟨j, h⟩
  · exact Or.inl ⟨h, leftClickScan_noHit btn g h _ _ (by omega)⟩
  · refine Or.inr ⟨j, h, leftClickScan_firstHit btn g j h _ _ (Nat.zero_le _) ?_⟩
    have := h.1
    omega

theorem onTileHit_none (g : Game) (j : Nat) (hm : g.moveState = MoveState.NONE) :
    onTileHit j g = some { g with selectedI := (j : Int), moveState := MoveState.SELECTED } := by
  unfold onTileHit
  rw [hm]

theorem onTileHit_same (g : Game) (j : Nat) (hm : g.moveState = MoveState.SELECTED)
    (hs : g.selectedI = (j : Int)) :
    onTileHit j g = some { g with selectedI := -1, moveState := MoveState.NONE } := by
  unfold onTileHit
  rw [hm]
  simp only [hs, ne_eq, not_true_eq_false, if_false]

/-- The source's hit test is the inclusive containment test. -/
theorem mouseWithinRectBound_iff (btn : SDL_MouseButtonEvent) (rect : SDL_Rect) :
    mouseWithinRectBound btn rect = true ↔ Contains rect btn.x btn.y := by
  unfold mouseWithinRectBound Contains
  constructor
  · intro h
    split_ifs at h with hc
    exact ⟨hc.1, hc.2.1, hc.2.2.1, hc.2.2.2⟩
  · intro h
    rw [if_pos ⟨h.1, h.2.1, h.2.2.1, h.2.2.2⟩]

theorem mouseWithinRectBound_false_iff (btn : SDL_MouseButtonEvent) (rect : SDL_Rect) :
    mouseWithinRectBound btn rect = false ↔ ¬ Contains rect btn.x btn.y := by
  rw [← mouseWithinRectBound_iff]
  cases mouseWithinRectBound btn rect <;> simp

/-- A pass of the loop in the Play phase hands the event to `eventsCheckPlay` and goes on
with the state it returns. -/
theorem mainLoop_cons_play (loaded : List Texture) (rnd : ShuffleDraws) (ev : SDL_Event)
    (rest : List (ShuffleDraws × SDL_Event)) (g g1 : Game)
    (hplay : g.programState = ProgramState.PLAY)
    (h : eventsCheckPlay rnd ev g = some g1) :
    mainLoop loaded ((rnd, ev) :: rest) g = mainLoop loaded rest g1 := by
  have hne : ¬ (g.programState = ProgramState.SHUTDOWN) := by rw [hplay]; decide
  rw [mainLoop, if_neg hne, mainLoopBody_play _ _ _ _ hplay, h]

/-- A button release clears `mouseClicked` and nothing else. -/
theorem release_step (rnd : ShuffleDraws) (up : SDL_MouseButtonEvent) (g : Game) :
    ∃ g', eventsCheckPlay rnd (SDL_Event.mouseButtonUp up) g = some g' ∧
      g'.mouseClicked = false ∧ g'.selectedI = g.selectedI ∧ g'.moveState = g.moveState ∧
      g'.dstImgCoords = g.dstImgCoords ∧
      g'.dstImgCoordsOriginal = g.dstImgCoordsOriginal ∧
      g'.programState = g.programState :=
  ⟨_, rfl, rfl, rfl, rfl, rfl, rfl, rfl⟩

/-- On a 16-slot board the scan of a left click reaches the first hit slot. -/
theorem leftDown_firstHit (rnd : ShuffleDraws) (p : SDL_MouseButtonEvent) (g : Game) (a : Nat)
    (hd : g.dstImgCoords.length = puzzlePiecesTotal)
    (hmc : g.mouseClicked = false) (hl : p.button = SDL_BUTTON_LEFT)
    (h : FirstHit p g.dstImgCoords a) :
    eventsCheckPlay rnd (SDL_Event.mouseButtonDown p) g =
      onTileHit a { g with mouseClicked := true } := by
  have ha : a < g.dstImgCoords.length := h.1
  exact (eventsCheckPlay_leftDown rnd p g hmc hl).trans
    (leftClickScan_firstHit p { g with mouseClicked := true } a h puzzlePiecesTotal 0
      (Nat.zero_le _) (by omega))

/-- A left click with nothing selected selects the first hit slot. -/
theorem select_step (rnd : ShuffleDraws) (p : SDL_MouseButtonEvent) (g : Game) (a : Nat)
    (hd : g.dstImgCoords.length = puzzlePiecesTotal)
    (hmc : g.mouseClicked = false) (hl : p.button = SDL_BUTTON_LEFT)
    (hnone : g.moveState = MoveState.NONE) (h : FirstHit p g.dstImgCoords a) :
    ∃ g', eventsCheckPlay rnd (SDL_Event.mouseButtonDown p) g = some g' ∧
      g'.mouseClicked = true ∧ g'.selectedI = (a : Int) ∧
      g'.moveState = MoveState.SELECTED ∧
      g'.dstImgCoords = g.dstImgCoords ∧
      g'.dstImgCoordsOriginal = g.dstImgCoordsOriginal ∧
      g'.programState = g.programState :=
  ⟨_, (leftDown_firstHit rnd p g a hd hmc hl h).trans (onTileHit_none _ a hnone),
    rfl, rfl, rfl, rfl, rfl, rfl⟩

/-- A left click whose first hit slot is the selected one clears the selection. -/
theorem reclick_step (rnd : ShuffleDraws) (p : SDL_MouseButtonEvent) (g : Game) (a : Nat)
    (hd : g.dstImgCoords.length = puzzlePiecesTotal)
    (hmc : g.mouseClicked = false) (hl : p.button = SDL_BUTTON_LEFT)
    (hsel : g.moveState = MoveState.SELECTED) (hs : g.selectedI = (a : Int))
    (h : FirstHit p g.dstImgCoords a) :
    ∃ g', eventsCheckPlay rnd (SDL_Event.mouseButtonDown p) g = some g' ∧
      g'.mouseClicked = true ∧ g'.selectedI = -1 ∧
      g'.moveState = MoveState.NONE ∧
      g'.dstImgCoords = g.dstImgCoords ∧
      g'.dstImgCoordsOriginal = g.dstImgCoordsOriginal ∧
      g'.programState = g.programState :=
  ⟨_, (leftDown_firstHit rnd p g a hd hmc hl h).trans (onTileHit_same _ a hsel hs),
    rfl, rfl, rfl, rfl, rfl, rfl⟩

/-- A left click whose first hit slot `j` is not the selected slot `s` exchanges the two. -/
theorem swap_step (rnd : ShuffleDraws) (p : SDL_MouseButtonEvent) (g : Game) (j s : Nat)
    (hd : g.dstImgCoords.length = puzzlePiecesTotal)
    (ho : g.dstImgCoordsOriginal.length = puzzlePiecesTotal)
    (hmc : g.mouseClicked = false) (hl : p.button = SDL_BUTTON_LEFT)
    (hsel : g.moveState = MoveState.SELECTED) (hs : g.selectedI = (s : Int))
    (hj : j < g.dstImgCoords.length) (hsl : s < g.dstImgCoords.length)
    (h : FirstHit p g.dstImgCoords j) (hne : j ≠ s) :
    ∃ g', eventsCheckPlay rnd (SDL_Event.mouseButtonDown p) g = some g' ∧
      g'.dstImgCoords = (g.dstImgCoords.set j g.dstImgCoords[s]).set s g.dstImgCoords[j] ∧
      g'.selectedI = -1 ∧ g'.moveState = MoveState.NONE := by
  obtain ⟨g', b, hg', -, hdst, hsI, hms, -⟩ :=
    onTileHit_swap { g with mouseClicked := true } j s hd ho hsel hs hj hsl hne
  exact ⟨g', (leftDown_firstHit rnd p g j hd hmc hl h).trans hg', hdst, hsI, hms⟩

/-- Release, click on `a`, release, click on `b`, with `a` and `b` distinct first hit slots:
the four passes run without fault and end with slots `a` and `b` exchanged and nothing
selected. -/
theorem two_clicks_exchange (loaded : List Texture) (rnd : ShuffleDraws) (g : Game)
    (p1 p2 up : SDL_MouseButtonEvent) (a b : Nat)
    (hplay : g.programState = ProgramState.PLAY)
    (hd : g.dstImgCoords.length = puzzlePiecesTotal)
    (ho : g.dstImgCoordsOriginal.length = puzzlePiecesTotal)
    (hnone : g.moveState = MoveState.NONE)
    (hl1 : p1.button = SDL_BUTTON_LEFT) (hl2 : p2.button = SDL_BUTTON_LEFT)
    (ha : a < g.dstImgCoords.length) (hb : b < g.dstImgCoords.length)
    (h1 : FirstHit p1 g.dstImgCoords a) (h2 : FirstHit p2 g.dstImgCoords b)
    (hab : a ≠ b) :
    ∃ g', mainLoop loaded [(rnd, SDL_Event.mouseButtonUp up), (rnd, SDL_Event.mouseButtonDown p1),
        (rnd, SDL_Event.mouseButtonUp up), (rnd, SDL_Event.mouseButtonDown p2)] g = some g' ∧
      g'.dstImgCoords = (g.dstImgCoords.set b g.dstImgCoords[a]).set a g.dstImgCoords[b] ∧
      g'.selectedI = -1 ∧ g'.moveState = MoveState.NONE := by
  obtain ⟨g0, e0, m0, -, s0, d0, o0, ph0⟩ := release_step rnd up g
  obtain ⟨g1, e1, -, i1, s1, d1, o1, ph1⟩ := select_step rnd p1 g0 a (d0 ▸ hd) m0 hl1
    (s0.trans hnone) (d0 ▸ h1)
  obtain ⟨g2, e2, m2, i2, s2, d2, o2, ph2⟩ := release_step rnd up g1
  have d2g : g2.dstImgCoords = g.dstImgCoords := d2.trans (d1.trans d0)
  have o2g : g2.dstImgCoordsOriginal = g.dstImgCoordsOriginal := o2.trans (o1.trans o0)
  obtain ⟨g3, e3, d3, i3, s3⟩ := swap_step rnd p2 g2 b a (d2g ▸ hd) (o2g ▸ ho) m2 hl2
    (s2.trans s1) (i2.trans i1) (d2g ▸ hb) (d2g ▸ ha) (d2g ▸ h2) (Ne.symm hab)
  refine ⟨g3, ?_, ?_, i3, s3⟩
  · rw [mainLoop_cons_play _ _ _ _ _ _ hplay e0,
      mainLoop_cons_play _ _ _ _ _ _ (ph0.trans hplay) e1,
      mainLoop_cons_play _ _ _ _ _ _ (ph1.trans (ph0.trans hplay)) e2,
      mainLoop_cons_play _ _ _ _ _ _ (ph2.trans (ph1.trans (ph0.trans hplay))) e3]
    rfl
  · rw [d3]
    simp only [d2g]

/-- The skip key: the effect of lines 322-333 on each variable. -/
theorem eventsCheckPlay_skip (rnd : ShuffleDraws) (g : Game) :
    ∃ g', eventsCheckPlay rnd (SDL_Event.keyUp SDLK_s) g = some g' ∧
      g'.puzzleCurrent =
        (if g.puzzleCurrent + 1 = (g.puzzleTextures.length : Int) then 0
          else g.puzzleCurrent + 1) ∧
      g'.puzzleTextures =
        (if g.puzzleCurrent + 1 = (g.puzzleTextures.length : Int) then
          shuffle rnd.puzzles g.puzzleTextures else g.puzzleTextures) ∧
      g'.dstImgCoords = shuffle rnd.pieces g.dstImgCoords ∧
      g'.dstImgCoordsOriginal = g.dstImgCoordsOriginal ∧
      g'.selectedI = -1 ∧ g'.moveState = MoveState.NONE ∧
      g'.programState = g.programState ∧ g'.miniRefImg = g.miniRefImg ∧
      g'.mouseClicked = g.mouseClicked ∧ g'.srcImgBase = g.srcImgBase := by
  by_cases h : g.puzzleCurrent + 1 = (g.puzzleTextures.length : Int)
  · refine ⟨{ shufflePuzzlePieces rnd.pieces
        { shufflePuzzles rnd.puzzles g with puzzleCurrent := 0 } with
        selectedI := -1, moveState := MoveState.NONE }, ?_, ?_⟩
    · simp only [eventsCheckPlay, if_true, h]
    · simp [h, shufflePuzzlePieces, shufflePuzzles]
  · refine ⟨{ shufflePuzzlePieces rnd.pieces
        { g with puzzleCurrent := g.puzzleCurrent + 1 } with
        selectedI := -1, moveState := MoveState.NONE }, ?_, ?_⟩
    · simp only [eventsCheckPlay, if_true, h, if_false]
    · simp [h, shufflePuzzlePieces]

/-- The continue key: the effect of lines 357-367 on each variable. -/
theorem eventsCheckTransition_continue (rnd : ShuffleDraws) (g : Game) :
    (eventsCheckTransition rnd (SDL_Event.keyUp SDLK_SPACE) g).puzzleCurrent =
        (if g.puzzleCurrent + 1 = (g.puzzleTextures.length : Int) then 0
          else g.puzzleCurrent + 1) ∧
      (eventsCheckTransition rnd (SDL_Event.keyUp SDLK_SPACE) g).puzzleTextures =
        (if g.puzzleCurrent + 1 = (g.puzzleTextures.length : Int) then
          shuffle rnd.puzzles g.puzzleTextures else g.puzzleTextures) ∧
      (eventsCheckTransition rnd (SDL_Event.keyUp SDLK_SPACE) g).dstImgCoords =
        shuffle rnd.pieces g.dstImgCoords ∧
      (eventsCheckTransition rnd (SDL_Event.keyUp SDLK_SPACE) g).dstImgCoordsOriginal =
        g.dstImgCoordsOriginal ∧
      (eventsCheckTransition rnd (SDL_Event.keyUp SDLK_SPACE) g).selectedI = g.selectedI ∧
      (eventsCheckTransition rnd (SDL_Event.keyUp SDLK_SPACE) g).moveState = g.moveState ∧
      (eventsCheckTransition rnd (SDL_Event.keyUp SDLK_SPACE) g).programState =
        ProgramState.PLAY ∧
      (eventsCheckTransition rnd (SDL_Event.keyUp SDLK_SPACE) g).miniRefImg = g.miniRefImg ∧
      (eventsCheckTransition rnd (SDL_Event.keyUp SDLK_SPACE) g).mouseClicked =
        g.mouseClicked ∧
      (eventsCheckTransition rnd (SDL_Event.keyUp SDLK_SPACE) g).srcImgBase =
        g.srcImgBase := by
  by_cases h : g.puzzleCurrent + 1 = (g.puzzleTextures.length : Int)
  · simp [eventsCheckTransition, h, shufflePuzzlePieces, shufflePuzzles]
  · simp [eventsCheckTransition, h, shufflePuzzlePieces]

/-! ## Invariants of the handlers -/

/-- The exchange done by `std::swap` yields a permutation of the vector. -/
theorem set_set_perm (v : List SDL_Rect) (j s : Nat) (hj : j < v.length) (hs : s < v.length) :
    ((v.set j v[s]).set s v[j]).Perm v := by
  have h := iterSwap_perm v j s
  unfold iterSwap at h
  rw [List.getElem?_eq_getElem hj, List.getElem?_eq_getElem hs] at h
  exact h

theorem setSrcCoords_length : ∀ (v : List SDL_Rect) (x y rc : Int),
    (setSrcCoords v x y rc).length = v.length := by
  intro v
  induction v with
  | nil => intro x y rc; rfl
  | cons r rest ih =>
    intro x y rc
    rw [setSrcCoords]
    split <;> simp [ih]

/-- The initial globals satisfy the invariant. -/
theorem inv_initialGame : Inv initialGame :=
  ⟨by decide, by decide, by decide, by decide, fun h => (by cases h), fun h => absurd rfl h⟩

/-- A state that keeps the reference layout and the source table, holds a permutation of the
slots, and has a valid selection that is empty in Transition, satisfies the invariant. -/
theorem Inv.update {g g' : Game} (h : Inv g) (hps : g.programState ≠ ProgramState.STARTUP)
    (hd : g'.dstImgCoords.Perm g.dstImgCoords)
    (ho : g'.dstImgCoordsOriginal = g.dstImgCoordsOriginal)
    (hs : g'.srcImgBase = g.srcImgBase) (hsel : SelOK g')
    (ht : g'.programState = ProgramState.TRANSITION → g'.moveState = MoveState.NONE) :
    Inv g' := by
  obtain ⟨h1, h2, h3, -, -, h6⟩ := h
  obtain ⟨hb1, hb2⟩ := h6 hps
  refine ⟨?_, ?_, ?_, hsel, ht, fun _ => ⟨?_, ?_⟩⟩
  · rw [hd.length_eq]; exact h1
  · rw [ho]; exact h2
  · rw [hs]; exact h3
  · rw [ho]; exact hb1
  · rw [ho]; exact hd.trans hb2

/-- Startup establishes the invariant and enters the Play phase with nothing selected. -/
theorem programStartup_inv (loaded : List Texture) (rnd : ShuffleDraws) (g : Game)
    (h : Inv g) :
    Inv (programStartup loaded rnd g) ∧
      (programStartup loaded rnd g).programState = ProgramState.PLAY ∧
      (programStartup loaded rnd g).dstImgCoordsOriginal = referenceLayout ∧
      (programStartup loaded rnd g).dstImgCoords.Perm referenceLayout := by
  obtain ⟨h1, -, h3, h4, -, -⟩ := h
  have horig : (programStartup loaded rnd g).dstImgCoordsOriginal = referenceLayout := by
    show setDstCoords 100 20 g.dstImgCoords 0 0 1 = referenceLayout
    rw [setDstCoords_eq g.dstImgCoords 0 0 0 1 (by simp) (by simp) (by simp), h1,
      referenceLayout, List.range_eq_range']
  have hperm : (programStartup loaded rnd g).dstImgCoords.Perm
      (programStartup loaded rnd g).dstImgCoordsOriginal := by
    show (shuffle rnd.pieces (setDstCoords 100 20 g.dstImgCoords 0 0 1)).Perm
      (setDstCoords 100 20 g.dstImgCoords 0 0 1)
    exact shuffle_perm _ _
  have hlen : referenceLayout.length = puzzlePiecesTotal := by
    simp [referenceLayout]
  refine ⟨⟨?_, ?_, ?_, h4, fun hc => (by cases hc), fun _ => ⟨horig, hperm⟩⟩, rfl, horig,
    horig ▸ hperm⟩
  · rw [hperm.length_eq, horig]; exact hlen
  · rw [horig]; exact hlen
  · show (setSrcCoords g.srcImgBase 0 0 0).length = puzzlePiecesTotal
    rw [setSrcCoords_length]; exact h3

/-- A button press other than the left one, taken while `mouseClicked` is false: the
slots and the phase are kept, the selection is kept or cleared. -/
theorem eventsCheckPlay_otherDown (rnd : ShuffleDraws) (btn : SDL_MouseButtonEvent) (g : Game)
    (hmc : g.mouseClicked = false) (hleft : btn.button ≠ SDL_BUTTON_LEFT) :
    ∃ g', eventsCheckPlay rnd (SDL_Event.mouseButtonDown btn) g = some g' ∧
      g'.dstImgCoords = g.dstImgCoords ∧
      g'.dstImgCoordsOriginal = g.dstImgCoordsOriginal ∧
      g'.srcImgBase = g.srcImgBase ∧ g'.programState = g.programState ∧
      ((g'.selectedI = g.selectedI ∧ g'.moveState = g.moveState) ∨
        (g'.selectedI = -1 ∧ g'.moveState = MoveState.NONE)) := by
  unfold eventsCheckPlay
  rw [hmc]
  simp only [Bool.not_false, if_true, hleft, if_false]
  split_ifs <;>
    first
      | exact ⟨_, rfl, rfl, rfl, rfl, rfl, Or.inl ⟨rfl, rfl⟩⟩
      | exact ⟨_, rfl, rfl, rfl, rfl, rfl, Or.inr ⟨rfl, rfl⟩⟩

/-- In the Play phase the handler never faults on a state that satisfies the invariant, and
the state it returns satisfies it again, with the same reference layout and a permutation
of the slots. -/
theorem eventsCheckPlay_inv (rnd : ShuffleDraws) (ev : SDL_Event) (g : Game)
    (hplay : g.programState = ProgramState.PLAY) (h : Inv g) :
    ∃ g', eventsCheckPlay rnd ev g = some g' ∧ Inv g' ∧
      g'.programState ≠ ProgramState.STARTUP ∧
      g'.dstImgCoordsOriginal = g.dstImgCoordsOriginal ∧
      g'.dstImgCoords.Perm g.dstImgCoords := by
  have hps : g.programState ≠ ProgramState.STARTUP := by rw [hplay]; decide
  have hd : g.dstImgCoords.length = puzzlePiecesTotal := h.1
  have ho : g.dstImgCoordsOriginal.length = puzzlePiecesTotal := h.2.1
  have hsel : SelOK g := h.2.2.2.1
  -- outcomes that keep the phase
  have keep : ∀ g' : Game, eventsCheckPlay rnd ev g = some g' →
      g'.programState = g.programState → g'.dstImgCoords.Perm g.dstImgCoords →
      g'.dstImgCoordsOriginal = g.dstImgCoordsOriginal → g'.srcImgBase = g.srcImgBase →
      SelOK g' →
      ∃ g', eventsCheckPlay rnd ev g = some g' ∧ Inv g' ∧
        g'.programState ≠ ProgramState.STARTUP ∧
        g'.dstImgCoordsOriginal = g.dstImgCoordsOriginal ∧
        g'.dstImgCoords.Perm g.dstImgCoords := by
    intro g' e hp hperm horig hsrc hs
    refine ⟨g', e, h.update hps hperm horig hsrc hs ?_, ?_, horig, hperm⟩
    · intro hc; rw [hp, hplay] at hc; cases hc
    · rw [hp]; exact hps
  cases ev with
  | quit =>
    refine ⟨_, rfl, h.update hps (List.Perm.refl _) rfl rfl hsel ?_, ?_, rfl, List.Perm.refl _⟩
    · intro hc; cases hc
    · intro hc; cases hc
  | mouseButtonUp b => exact keep _ rfl rfl (List.Perm.refl _) rfl rfl hsel
  | other => exact keep _ rfl rfl (List.Perm.refl _) rfl rfl hsel
  | keyUp sym =>
    by_cases hk : sym = SDLK_s
    · subst hk
      obtain ⟨g', e, -, -, hdst, horig, hsI, hms, hp, -, -, hsrc⟩ := eventsCheckPlay_skip rnd g
      exact keep g' e hp (hdst ▸ shuffle_perm _ _) horig hsrc (Or.inl ⟨hms, hsI⟩)
    · exact keep g (by simp only [eventsCheckPlay, hk, if_false]) rfl (List.Perm.refl _)
        rfl rfl hsel
  | mouseButtonDown btn =>
    cases hmc : g.mouseClicked with
    | true =>
      exact keep g (eventsCheckPlay_down_held rnd btn g hmc) rfl (List.Perm.refl _)
        rfl rfl hsel
    | false =>
      by_cases hleft : btn.button = SDL_BUTTON_LEFT
      · have hstart := eventsCheckPlay_leftDown rnd btn g hmc hleft
        rcases leftClickScan_cases btn { g with mouseClicked := true } hd with
          ⟨-, hscan⟩ | ⟨j, hfirst, hscan⟩
        · exact keep _ (hstart.trans hscan) rfl (List.Perm.refl _) rfl rfl hsel
        · have hj : j < g.dstImgCoords.length := hfirst.1
          cases hms : g.moveState with
          | NONE =>
            refine keep _ (hstart.trans (hscan.trans (onTileHit_none _ j hms))) rfl
              (List.Perm.refl _) rfl rfl (Or.inr ⟨rfl, ?_, ?_⟩)
            · exact Int.ofNat_nonneg j
            · show (j : Int) < (puzzlePiecesTotal : Int)
              omega
          | SELECTED =>
            have hsv : 0 ≤ g.selectedI ∧ g.selectedI < (puzzlePiecesTotal : Int) := by
              rcases hsel with ⟨hn, -⟩ | ⟨-, h0, h16⟩
              · rw [hms] at hn; cases hn
              · exact ⟨h0, h16⟩
            by_cases hjs : (j : Int) = g.selectedI
            · exact keep _ (hstart.trans (hscan.trans (onTileHit_same _ j hms hjs.symm)))
                rfl (List.Perm.refl _) rfl rfl (Or.inl ⟨rfl, rfl⟩)
            · have hsI : g.selectedI = ((g.selectedI.toNat : Nat) : Int) :=
                (Int.toNat_of_nonneg hsv.1).symm
              have hsl : g.selectedI.toNat < g.dstImgCoords.length := by omega
              have hne : j ≠ g.selectedI.toNat := by
                intro e; apply hjs; rw [hsI, e]
              obtain ⟨g', b, hg', -, hdst, hsI', hms', hphase, -, horig, -, -, -, hsrc⟩ :=
                onTileHit_swap { g with mouseClicked := true } j g.selectedI.toNat hd ho hms
                  hsI hj hsl hne
              have hperm : g'.dstImgCoords.Perm g.dstImgCoords := by
                rw [hdst]; exact set_set_perm g.dstImgCoords j _ hj hsl
              refine ⟨g', hstart.trans (hscan.trans hg'),
                h.update hps hperm horig hsrc (Or.inl ⟨hms', hsI'⟩) (fun _ => hms'), ?_,
                horig, hperm⟩
              rw [hphase]
              cases b
              · simp only [Bool.false_eq_true, if_false]; exact hps
              · simp only [if_true]; decide
      · obtain ⟨g', e, hdst, horig, hsrc, hp, hs⟩ :=
          eventsCheckPlay_otherDown rnd btn g hmc hleft
        refine keep g' e hp (hdst ▸ List.Perm.refl _) horig hsrc ?_
        rcases hs with ⟨h1, h2⟩ | ⟨h1, h2⟩
        · rcases hsel with ⟨a, b⟩ | ⟨a, b, c⟩
          · exact Or.inl ⟨h2.trans a, h1.trans b⟩
          · exact Or.inr ⟨h2.trans a, h1 ▸ b, h1 ▸ c⟩
        · exact Or.inl ⟨h2, h1⟩

/-- In the Transition phase the handler returns the state itself for every event other
than Quit and the release of the space key. -/
theorem eventsCheckTransition_ignored (rnd : ShuffleDraws) (ev : SDL_Event) (g : Game)
    (hq : ev ≠ SDL_Event.quit) (hk : ev ≠ SDL_Event.keyUp SDLK_SPACE) :
    eventsCheckTransition rnd ev g = g := by
  cases ev with
  | quit => exact absurd rfl hq
  | mouseButtonDown b => rfl
  | mouseButtonUp b => rfl
  | other => rfl
  | keyUp sym =>
    have hs : sym ≠ SDLK_SPACE := fun e => hk (by rw [e])
    simp only [eventsCheckTransition, hs, if_false]

/-- In the Transition phase the handler keeps the invariant, the reference layout and the
slots up to a permutation. -/
theorem eventsCheckTransition_inv (rnd : ShuffleDraws) (ev : SDL_Event) (g : Game)
    (ht : g.programState = ProgramState.TRANSITION) (h : Inv g) :
    Inv (eventsCheckTransition rnd ev g) ∧
      (eventsCheckTransition rnd ev g).programState ≠ ProgramState.STARTUP ∧
      (eventsCheckTransition rnd ev g).dstImgCoordsOriginal = g.dstImgCoordsOriginal ∧
      (eventsCheckTransition rnd ev g).dstImgCoords.Perm g.dstImgCoords := by
  have hps : g.programState ≠ ProgramState.STARTUP := by rw [ht]; decide
  have hsel : SelOK g := h.2.2.2.1
  by_cases hq : ev = SDL_Event.quit
  · subst hq
    refine ⟨h.update hps (List.Perm.refl _) rfl rfl hsel ?_, ?_, rfl, List.Perm.refl _⟩
    · intro hc; cases hc
    · intro hc; cases hc
  · by_cases hk : ev = SDL_Event.keyUp SDLK_SPACE
    · subst hk
      obtain ⟨-, -, hdst, horig, hsI, hms, hp, -, -, hsrc⟩ :=
        eventsCheckTransition_continue rnd g
      have hperm : (eventsCheckTransition rnd (SDL_Event.keyUp SDLK_SPACE) g).dstImgCoords.Perm
          g.dstImgCoords := by
        rw [hdst]; exact shuffle_perm _ _
      refine ⟨h.update hps hperm horig hsrc ?_ ?_, ?_, horig, hperm⟩
      · rcases hsel with ⟨a, b⟩ | ⟨a, b, c⟩
        · exact Or.inl ⟨hms.trans a, hsI.trans b⟩
        · exact Or.inr ⟨hms.trans a, hsI ▸ b, hsI ▸ c⟩
      · intro hc; rw [hp] at hc; cases hc
      · rw [hp]; decide
    · rw [eventsCheckTransition_ignored rnd ev g hq hk]
      exact ⟨h, hps, rfl, List.Perm.refl _⟩

/-- One pass of the loop body never faults on a state that satisfies the invariant and
returns a state that satisfies it; after startup the reference layout is kept and the
slots are permuted. -/
theorem mainLoopBody_inv (loaded : List Texture) (rnd : ShuffleDraws) (ev : SDL_Event)
    (g : Game) (h : Inv g) :
    ∃ g', mainLoopBody loaded rnd ev g = some g' ∧ Inv g' ∧
      (g.programState ≠ ProgramState.STARTUP →
        g'.dstImgCoordsOriginal = g.dstImgCoordsOriginal ∧
        g'.dstImgCoords.Perm g.dstImgCoords) := by
  cases hp : g.programState with
  | STARTUP =>
    refine ⟨programStartup loaded rnd g, ?_, (programStartup_inv loaded rnd g h).1, ?_⟩
    · simp only [mainLoopBody, hp]
    · intro hc; exact absurd rfl hc
  | PLAY =>
    obtain ⟨g', e, hi, -, ho, hd⟩ := eventsCheckPlay_inv rnd ev g hp h
    exact ⟨g', (mainLoopBody_play loaded rnd ev g hp).trans e, hi, fun _ => ⟨ho, hd⟩⟩
  | TRANSITION =>
    obtain ⟨hi, -, ho, hd⟩ := eventsCheckTransition_inv rnd ev g hp h
    refine ⟨eventsCheckTransition rnd ev g, ?_, hi, fun _ => ⟨ho, hd⟩⟩
    simp only [mainLoopBody, hp]
  | SHUTDOWN =>
    refine ⟨g, ?_, h, fun _ => ⟨rfl, List.Perm.refl _⟩⟩
    simp only [mainLoopBody, hp]

/-- The loop of `main` never faults from a state that satisfies the invariant, whatever the
inputs, and ends in a state that satisfies it. -/
theorem mainLoop_inv (loaded : List Texture) :
    ∀ (inputs : List (ShuffleDraws × SDL_Event)) (g : Game), Inv g →
      ∃ g', mainLoop loaded inputs g = some g' ∧ Inv g' := by
  intro inputs
  induction inputs with
  | nil => intro g h; exact ⟨g, rfl, h⟩
  | cons hd rest ih =>
    intro g h
    obtain ⟨rnd, ev⟩ := hd
    by_cases hs : g.programState = ProgramState.SHUTDOWN
    · exact ⟨g, by rw [mainLoop, if_pos hs], h⟩
    · obtain ⟨g1, e1, h1, -⟩ := mainLoopBody_inv loaded rnd ev g h
      obtain ⟨g', e', h'⟩ := ih g1 h1
      exact ⟨g', by rw [mainLoop, if_neg hs, e1]; exact e', h'⟩

/-- Once startup is over the loop keeps the reference layout and permutes the slots. -/
theorem mainLoop_board (loaded : List Texture) :
    ∀ (inputs : List (ShuffleDraws × SDL_Event)) (g g' : Game), Inv g →
      g.programState ≠ ProgramState.STARTUP → mainLoop loaded inputs g = some g' →
      g'.programState ≠ ProgramState.STARTUP ∧
      g'.dstImgCoordsOriginal = g.dstImgCoordsOriginal ∧
      g'.dstImgCoords.Perm g.dstImgCoords := by
  intro inputs
  induction inputs with
  | nil =>
    intro g g' _ hps e
    cases e
    exact ⟨hps, rfl, List.Perm.refl _⟩
  | cons hd rest ih =>
    intro g g' h hps e
    obtain ⟨rnd, ev⟩ := hd
    by_cases hs : g.programState = ProgramState.SHUTDOWN
    · rw [mainLoop, if_pos hs] at e
      cases e
      exact ⟨hps, rfl, List.Perm.refl _⟩
    · obtain ⟨g1, e1, h1, hb⟩ := mainLoopBody_inv loaded rnd ev g h
      obtain ⟨ho1, hd1⟩ := hb hps
      rw [mainLoop, if_neg hs, e1] at e
      have hps1 : g1.programState ≠ ProgramState.STARTUP := by
        intro hc
        have hbo := h.2.2.2.2.2 hps
        cases hp : g.programState with
        | STARTUP => exact hps hp
        | PLAY =>
          obtain ⟨g2, e2, -, hne, -⟩ := eventsCheckPlay_inv rnd ev g hp h
          rw [mainLoopBody_play loaded rnd ev g hp, e2] at e1
          cases e1
          exact hne hc
        | TRANSITION =>
          have := (eventsCheckTransition_inv rnd ev g hp h).2.1
          simp only [mainLoopBody, hp, Option.some.injEq] at e1
          rw [← e1] at hc
          exact this hc
        | SHUTDOWN => exact hs hp
      obtain ⟨hps', ho', hd'⟩ := ih g1 g' h1 hps1 e
      exact ⟨hps', ho'.trans ho1, hd'.trans hd1⟩

/-! ## Rendering and the loop with rendering -/

theorem atInt_bounds {α : Type} (v : List α) (i : Int) (a : α) (h : atInt v i = some a) :
    0 ≤ i ∧ i < (v.length : Int) := by
  unfold atInt at h
  split_ifs at h with hneg
  obtain ⟨hlt, -⟩ := List.getElem?_eq_some.1 h
  omega

theorem atInt_inside {α : Type} (v : List α) (i : Int) (h0 : 0 ≤ i)
    (h1 : i < (v.length : Int)) : ∃ a, atInt v i = some a := by
  have hneg : ¬ (i < 0) := by omega
  have hlt : i.toNat < v.length := by omega
  exact ⟨v[i.toNat], by rw [atInt, if_neg hneg, List.getElem?_eq_getElem hlt]⟩

/-- A frame can only be drawn when the current index is an index of the library. -/
theorem renderUpdate_libOK (g : Game) (l : List RenderCopy) (h : renderUpdate g = some l) :
    LibOK g := by
  unfold renderUpdate at h
  cases ht : renderTilesLoop g puzzlePiecesTotal 0 with
  | none => rw [ht] at h; cases h
  | some tiles =>
    have hstep : renderTilesLoop g (15 + 1) 0 = some tiles := ht
    rw [renderTilesLoop] at hstep
    cases ha : atInt g.puzzleTextures g.puzzleCurrent with
    | none => rw [ha] at hstep; cases hstep
    | some t => exact atInt_bounds _ _ t ha

theorem renderTilesLoop_total (g : Game) (hlib : LibOK g) :
    ∀ fuel i, i + fuel ≤ g.srcImgBase.length → i + fuel ≤ g.dstImgCoords.length →
      ∃ l, renderTilesLoop g fuel i = some l := by
  obtain ⟨t, ht⟩ := atInt_inside g.puzzleTextures g.puzzleCurrent hlib.1 hlib.2
  intro fuel
  induction fuel with
  | zero => intro i _ _; exact ⟨[], rfl⟩
  | succ n ih =>
    intro i hs hd
    obtain ⟨rest, hrest⟩ := ih (i + 1) (by omega) (by omega)
    have h1 : i < g.srcImgBase.length := by omega
    have h2 : i < g.dstImgCoords.length := by omega
    exact ⟨_, by
      rw [renderTilesLoop, ht, List.getElem?_eq_getElem h1, List.getElem?_eq_getElem h2,
        hrest]⟩

/-- A frame is drawn without fault in every state that satisfies the invariant and whose
current index is an index of the library. -/
theorem renderUpdate_total (g : Game) (h : Inv g) (hlib : LibOK g) :
    ∃ l, renderUpdate g = some l := by
  obtain ⟨hd, -, hs, hsel, -, -⟩ := h
  obtain ⟨tiles, ht⟩ := renderTilesLoop_total g hlib puzzlePiecesTotal 0 (by omega) (by omega)
  obtain ⟨t, hta⟩ := atInt_inside g.puzzleTextures g.puzzleCurrent hlib.1 hlib.2
  unfold renderUpdate
  rw [ht, hta]
  rcases hsel with ⟨hn, -⟩ | ⟨hm, h0, h16⟩
  · have hne : ¬ (g.moveState = MoveState.SELECTED) := by rw [hn]; decide
    simp only [hne, if_false]
    split_ifs <;> exact ⟨_, rfl⟩
  · obtain ⟨r, hr⟩ := atInt_inside g.dstImgCoords g.selectedI h0 (by omega)
    simp only [hm, if_true, hr]
    split_ifs <;> exact ⟨_, rfl⟩

/-- A pass with rendering is the pass of `mainLoopBody`; when it comes back from the Play
or the Transition case, the frame was drawn from the returned state. -/
theorem mainLoopPass_sound (loaded : List Texture) (rnd : ShuffleDraws) (ev : SDL_Event)
    (g g' : Game) (h : mainLoopPass loaded rnd ev g = some g') :
    mainLoopBody loaded rnd ev g = some g' ∧
      (g.programState = ProgramState.PLAY ∨ g.programState = ProgramState.TRANSITION →
        LibOK g') := by
  unfold mainLoopPass at h
  cases hp : g.programState with
  | STARTUP =>
    rw [hp] at h
    refine ⟨by simpa only [mainLoopBody, hp] using h, ?_⟩
    rintro (hc | hc) <;> cases hc
  | SHUTDOWN =>
    rw [hp] at h
    refine ⟨by simpa only [mainLoopBody, hp] using h, ?_⟩
    rintro (hc | hc) <;> cases hc
  | PLAY =>
    rw [hp] at h
    simp only at h
    cases he : eventsCheckPlay rnd ev g with
    | none => rw [he] at h; cases h
    | some g1 =>
      rw [he] at h
      simp only at h
      cases hr : renderUpdate g1 with
      | none => rw [hr] at h; cases h
      | some l =>
        rw [hr] at h
        simp only [Option.some.injEq] at h
        subst h
        exact ⟨(mainLoopBody_play loaded rnd ev g hp).trans he,
          fun _ => renderUpdate_libOK g1 l hr⟩
  | TRANSITION =>
    rw [hp] at h
    simp only at h
    cases hr : renderUpdate (eventsCheckTransition rnd ev g) with
    | none => rw [hr] at h; cases h
    | some l =>
      rw [hr] at h
      simp only [Option.some.injEq] at h
      subst h
      exact ⟨by simp only [mainLoopBody, hp], fun _ => renderUpdate_libOK _ l hr⟩

/-- Every state that the loop with rendering reaches is reached by the loop of the handlers
alone, satisfies the invariant and, in the Transition phase, has a current index inside the
library. -/
theorem mainRun_inv (loaded : List Texture) :
    ∀ (inputs : List (ShuffleDraws × SDL_Event)) (g g' : Game), Inv g →
      (g.programState = ProgramState.TRANSITION → LibOK g) →
      mainRun loaded inputs g = some g' →
      Inv g' ∧ (g'.programState = ProgramState.TRANSITION → LibOK g') ∧
        mainLoop loaded inputs g = some g' := by
  intro inputs
  induction inputs with
  | nil =>
    intro g g' h hl e
    cases e
    exact ⟨h, hl, rfl⟩
  | cons hd rest ih =>
    intro g g' h hl e
    obtain ⟨rnd, ev⟩ := hd
    by_cases hs : g.programState = ProgramState.SHUTDOWN
    · rw [mainRun, if_pos hs] at e
      cases e
      exact ⟨h, hl, by rw [mainLoop, if_pos hs]⟩
    · rw [mainRun, if_neg hs] at e
      cases hpass : mainLoopPass loaded rnd ev g with
      | none => rw [hpass] at e; cases e
      | some g1 =>
        rw [hpass] at e
        simp only at e
        obtain ⟨hbody, hlib⟩ := mainLoopPass_sound loaded rnd ev g g1 hpass
        obtain ⟨g2, e2, h2, -⟩ := mainLoopBody_inv loaded rnd ev g h
        rw [hbody] at e2
        cases e2
        have hl1 : g1.programState = ProgramState.TRANSITION → LibOK g1 := by
          intro ht
          cases hp : g.programState with
          | STARTUP =>
            have : mainLoopBody loaded rnd ev g = some (programStartup loaded rnd g) := by
              simp only [mainLoopBody, hp]
            rw [hbody] at this
            cases this
            cases ht
          | PLAY => exact hlib (Or.inl hp)
          | TRANSITION => exact hlib (Or.inr hp)
          | SHUTDOWN => exact absurd hp hs
        obtain ⟨h', hl', e'⟩ := ih g1 g' h2 hl1 e
        exact ⟨h', hl', by rw [mainLoop, if_neg hs, hbody]; exact e'⟩

/-! ## Consecutive advance steps -/

/-- One advance step, by the skip key in Play or the continue key in Transition. -/
theorem advance_one (loaded : List Texture) (rnd : ShuffleDraws) (g : Game)
    (hp : g.programState = ProgramState.PLAY ∨ g.programState = ProgramState.TRANSITION) :
    ∃ g', mainLoopBody loaded rnd (advanceKey g) g = some g' ∧
      g'.puzzleCurrent =
        (if g.puzzleCurrent + 1 = (g.puzzleTextures.length : Int) then 0
          else g.puzzleCurrent + 1) ∧
      g'.puzzleTextures =
        (if g.puzzleCurrent + 1 = (g.puzzleTextures.length : Int) then
          shuffle rnd.puzzles g.puzzleTextures else g.puzzleTextures) ∧
      g'.programState = ProgramState.PLAY := by
  rcases hp with hp | hp
  · have hk : advanceKey g = SDL_Event.keyUp SDLK_s := by
      have hne : ¬ (g.programState = ProgramState.TRANSITION) := by rw [hp]; decide
      rw [advanceKey, if_neg hne]
    obtain ⟨g', e, hcur, htex, -, -, -, -, hps, -⟩ := eventsCheckPlay_skip rnd g
    exact ⟨g', by rw [hk, mainLoopBody_play loaded rnd _ g hp, e], hcur, htex, hps.trans hp⟩
  · have hk : advanceKey g = SDL_Event.keyUp SDLK_SPACE := by
      rw [advanceKey, if_pos hp]
    obtain ⟨hcur, htex, -, -, -, -, hps, -⟩ := eventsCheckTransition_continue rnd g
    exact ⟨_, by rw [hk]; simp only [mainLoopBody, hp], hcur, htex, hps⟩

/-- Advance steps that stay below the end of the library count the index up and leave the
library alone. -/
theorem advanceRun_climb (loaded : List Texture) :
    ∀ (rnds : List ShuffleDraws) (g : Game),
      (g.programState = ProgramState.PLAY ∨ g.programState = ProgramState.TRANSITION) →
      g.puzzleCurrent + (rnds.length : Int) < (g.puzzleTextures.length : Int) →
      ∃ g', advanceRun loaded rnds g = some g' ∧
        g'.puzzleCurrent = g.puzzleCurrent + (rnds.length : Int) ∧
        g'.puzzleTextures = g.puzzleTextures ∧
        (g'.programState = ProgramState.PLAY ∨
          g'.programState = ProgramState.TRANSITION) := by
  intro rnds
  induction rnds with
  | nil =>
    intro g hp _
    exact ⟨g, rfl, by simp, rfl, hp⟩
  | cons rnd rest ih =>
    intro g hp hlt
    obtain ⟨g1, e1, hcur, htex, hps⟩ := advance_one loaded rnd g hp
    have hlen : ((rnd :: rest).length : Int) = (rest.length : Int) + 1 := by simp
    have hne : ¬ (g.puzzleCurrent + 1 = (g.puzzleTextures.length : Int)) := by omega
    rw [if_neg hne] at hcur htex
    obtain ⟨g', e', hcur', htex', hps'⟩ := ih g1 (Or.inl hps) (by rw [hcur, htex]; omega)
    refine ⟨g', by rw [advanceRun, e1]; exact e', ?_, htex'.trans htex, hps'⟩
    rw [hcur', hcur]; omega

theorem advanceRun_append (loaded : List Texture) :
    ∀ (a b : List ShuffleDraws) (g : Game),
      advanceRun loaded (a ++ b) g = (advanceRun loaded a g).bind (advanceRun loaded b) := by
  intro a
  induction a with
  | nil => intro b g; rfl
  | cons rnd rest ih =>
    intro b g
    rw [List.cons_append, advanceRun, advanceRun]
    cases mainLoopBody loaded rnd (advanceKey g) g with
    | none => rfl
    | some g1 => exact ih b g1

/-! ## Geometry of the reference layout -/

/-- A point strictly inside one cell of the grid is outside every other cell, edges
included. -/
theorem interior_misses_other_cell (a b : Nat) (px py : Int) (hab : a ≠ b)
    (hin : StrictlyInside (gridRect 100 4 100 20 a) px py) :
    ¬ Contains (gridRect 100 4 100 20 b) px py := by
  simp only [StrictlyInside, Contains, gridRect] at *
  omega

/-- A point that two different cells of the grid contain lies on an edge line of both. -/
theorem double_hit_on_edges (a b : Nat) (px py : Int) (hab : a ≠ b)
    (h1 : Contains (gridRect 100 4 100 20 a) px py)
    (h2 : Contains (gridRect 100 4 100 20 b) px py) :
    OnEdge (gridRect 100 4 100 20 a) px py ∧ OnEdge (gridRect 100 4 100 20 b) px py := by
  simp only [OnEdge, Contains, gridRect] at *
  omega

theorem referenceLayout_nodup : referenceLayout.Nodup := by decide

theorem referenceLayout_length : referenceLayout.length = puzzlePiecesTotal := by
  simp [referenceLayout]

theorem referenceLayout_getElem? (i : Nat) (r : SDL_Rect) (h : referenceLayout[i]? = some r) :
    r = gridRect 100 4 100 20 i := by
  unfold referenceLayout at h
  rw [List.getElem?_map] at h
  have hi : i < puzzlePiecesTotal := by
    by_contra hc
    rw [List.getElem?_eq_none (by simpa using hc)] at h
    cases h
  rw [List.getElem?_range hi] at h
  simpa using h.symm

/-! ## The claims -/

/-- C1: with the button released and tile `s` selected, a left click whose first hit slot is
an index `j` different from `s` is handled without fault, exchanges `dstImgCoords[s]` and
`dstImgCoords[j]`, leaves every other slot as it was, and clears the selection
(`selectedI = -1`, `moveState = NONE`). -/
theorem leftClick_exchanges_selected_and_hit (loaded : List Texture) (rnd : ShuffleDraws) (g : Game)
    (btn : SDL_MouseButtonEvent) (s j : Nat)
    (hplay : g.programState = ProgramState.PLAY)
    (hd : g.dstImgCoords.length = puzzlePiecesTotal)
    (ho : g.dstImgCoordsOriginal.length = puzzlePiecesTotal)
    (hmc : g.mouseClicked = false)
    (hleft : btn.button = SDL_BUTTON_LEFT)
    (hsel : g.moveState = MoveState.SELECTED) (hs : g.selectedI = (s : Int))
    (hs16 : s < puzzlePiecesTotal)
    (hhit : FirstHit btn g.dstImgCoords j) (hne : j ≠ s) :
    ∃ g', mainLoopBody loaded rnd (SDL_Event.mouseButtonDown btn) g = some g' ∧
      g'.dstImgCoords[s]? = g.dstImgCoords[j]? ∧
      g'.dstImgCoords[j]? = g.dstImgCoords[s]? ∧
      (∀ k, k ≠ s → k ≠ j → g'.dstImgCoords[k]? = g.dstImgCoords[k]?) ∧
      g'.selectedI = -1 ∧ g'.moveState = MoveState.NONE := by
  have hj : j < g.dstImgCoords.length := hhit.1
  have hsl : s < g.dstImgCoords.length := by omega
  obtain ⟨g', b, hg', -, hdst, hsI, hms, -⟩ :=
    onTileHit_swap { g with mouseClicked := true } j s hd ho hsel hs hj hsl hne
  have hscan := leftClickScan_firstHit btn { g with mouseClicked := true } j hhit
    puzzlePiecesTotal 0 (Nat.zero_le _) (by simpa [hd] using hj)
  have hjs : (g.dstImgCoords.set j g.dstImgCoords[s]).length = g.dstImgCoords.length :=
    List.length_set _ _ _
  refine ⟨g', ?_, ?_, ?_, ?_, hsI, hms⟩
  · rw [mainLoopBody_play _ _ _ _ hplay, eventsCheckPlay_leftDown _ _ _ hmc hleft, hscan, hg']
  · rw [hdst]
    rw [List.getElem?_set_self (by rw [hjs]; exact hsl), List.getElem?_eq_getElem hj]
  · rw [hdst]
    rw [List.getElem?_set_ne (Ne.symm hne), List.getElem?_set_self hj,
      List.getElem?_eq_getElem hsl]
  · intro k hk1 hk2
    rw [hdst]
    rw [List.getElem?_set_ne (Ne.symm hk1), List.getElem?_set_ne (Ne.symm hk2)]

/-- Witness of C1: in the reference arrangement with tile 3 selected, a click at (450, 170)
first hits slot 7. -/
theorem leftClick_exchanges_selected_and_hit_witness :
    ∃ g', mainLoopBody [11, 12, 13] noDraws (leftClick 450 170) selected3Game = some g' ∧
      g'.dstImgCoords[3]? = selected3Game.dstImgCoords[7]? ∧
      g'.dstImgCoords[7]? = selected3Game.dstImgCoords[3]? ∧
      (∀ k, k ≠ 3 → k ≠ 7 → g'.dstImgCoords[k]? = selected3Game.dstImgCoords[k]?) ∧
      g'.selectedI = -1 ∧ g'.moveState = MoveState.NONE :=
  leftClick_exchanges_selected_and_hit [11, 12, 13] noDraws selected3Game
    { button := SDL_BUTTON_LEFT, x := 450, y := 170 } 3 7
    (by decide) (by decide) (by decide) (by decide) (by decide) (by decide) (by decide)
    (by decide) (by decide) (by decide)

/-- C2: on the two 16-slot vectors `puzzleSolved` returns a verdict, and the verdict is `true`
if and only if `dstImgCoords[i]` and `dstImgCoordsOriginal[i]` have equal `x` and equal `y`
for every index `i` below 16.  The verdict is the same in every state whose slots have the
same `(x, y)` positions: it depends neither on `w`, `h` nor on any other variable of the
program, hence not on how the arrangement was reached. -/
theorem puzzleSolved_iff_positions_agree (g : Game)
    (hd : g.dstImgCoords.length = puzzlePiecesTotal)
    (ho : g.dstImgCoordsOriginal.length = puzzlePiecesTotal) :
    ∃ b, puzzleSolved g = some b ∧
      (b = true ↔ ∀ i (hi : i < puzzlePiecesTotal),
        g.dstImgCoords[i].x = g.dstImgCoordsOriginal[i].x ∧
        g.dstImgCoords[i].y = g.dstImgCoordsOriginal[i].y) ∧
      ∀ g2 : Game,
        g2.dstImgCoords.map (fun r => (r.x, r.y)) = g.dstImgCoords.map (fun r => (r.x, r.y)) →
        g2.dstImgCoordsOriginal.map (fun r => (r.x, r.y)) =
          g.dstImgCoordsOriginal.map (fun r => (r.x, r.y)) →
        puzzleSolved g2 = some b := by
  obtain ⟨b, hb⟩ := puzzleSolvedLoop_total g puzzlePiecesTotal 0 (by omega) (by omega)
  have hb1 : puzzleSolved g = some b := hb
  refine ⟨b, hb1, ?_, ?_⟩
  · constructor
    · intro hbt i hi
      rw [hbt] at hb1
      have hi1 : i < g.dstImgCoords.length := by omega
      have hi2 : i < g.dstImgCoordsOriginal.length := by omega
      obtain ⟨d, o, h1, h2, hx, hy⟩ := (puzzleSolved_true_iff g).1 hb1 i hi
      rw [List.getElem?_eq_getElem hi1] at h1
      rw [List.getElem?_eq_getElem hi2] at h2
      simp only [Option.some.injEq] at h1 h2
      subst h1 h2
      exact ⟨hx, hy⟩
    · intro h
      have ht := (puzzleSolved_true_iff g).2 (fun i hi =>
        ⟨g.dstImgCoords[i], g.dstImgCoordsOriginal[i],
          List.getElem?_eq_getElem (by omega), List.getElem?_eq_getElem (by omega),
          (h i hi).1, (h i hi).2⟩)
      rw [hb1] at ht
      cases ht; rfl
  · intro g2 hmd hmo
    have hd2 : g2.dstImgCoords.length = puzzlePiecesTotal := by
      have := congrArg List.length hmd
      simpa [hd] using this
    have ho2 : g2.dstImgCoordsOriginal.length = puzzlePiecesTotal := by
      have := congrArg List.length hmo
      simpa [ho] using this
    obtain ⟨b2, hb2⟩ := puzzleSolvedLoop_total g2 puzzlePiecesTotal 0 (by omega) (by omega)
    have hb3 : puzzleSolved g2 = some b2 := hb2
    rw [hb3]
    congr 1
    cases b2 <;> cases b
    · rfl
    · have := (puzzleSolved_true_iff g2).2
        (positions_transfer g g2 _ hmd hmo ((puzzleSolved_true_iff g).1 hb1))
      rw [hb3] at this; cases this
    · have := (puzzleSolved_true_iff g).2
        (positions_transfer g2 g _ hmd.symm hmo.symm ((puzzleSolved_true_iff g2).1 hb3))
      rw [hb1] at this; cases this
    · rfl

/-- Witness of C2: the reference arrangement, whose verdict is shared by every state with
the same slot positions. -/
theorem puzzleSolved_iff_positions_agree_witness :
    ∃ b, puzzleSolved solvedGame = some b ∧
      ∀ g2 : Game,
        g2.dstImgCoords.map (fun r => (r.x, r.y)) =
          solvedGame.dstImgCoords.map (fun r => (r.x, r.y)) →
        g2.dstImgCoordsOriginal.map (fun r => (r.x, r.y)) =
          solvedGame.dstImgCoordsOriginal.map (fun r => (r.x, r.y)) →
        puzzleSolved g2 = some b :=
  (puzzleSolved_iff_positions_agree solvedGame (by decide) (by decide)).imp
    (fun _ h => ⟨h.1, h.2.2⟩)

/-- C3: in the Play phase, on 16-slot vectors and with a selection that, when present, is an
index below 16, every event other than Quit is handled without fault; the phase afterwards
is `TRANSITION` if and only if the event is a left click that performs a swap and
`puzzleSolved` holds of the arrangement after the swap, and it is `PLAY` otherwise. -/
theorem eventsCheckPlay_transition_iff_solving_swap (rnd : ShuffleDraws) (g : Game)
    (ev : SDL_Event)
    (hplay : g.programState = ProgramState.PLAY)
    (hd : g.dstImgCoords.length = puzzlePiecesTotal)
    (ho : g.dstImgCoordsOriginal.length = puzzlePiecesTotal)
    (hsel : g.moveState = MoveState.SELECTED →
      0 ≤ g.selectedI ∧ g.selectedI < (puzzlePiecesTotal : Int))
    (hq : ev ≠ SDL_Event.quit) :
    ∃ g', eventsCheckPlay rnd ev g = some g' ∧
      (g'.programState = ProgramState.TRANSITION ↔
        (SwapClick g ev ∧ puzzleSolved g' = some true)) ∧
      (¬ (SwapClick g ev ∧ puzzleSolved g' = some true) →
        g'.programState = ProgramState.PLAY) := by
  -- every outcome that keeps the phase and is not a swap click
  have keep : ∀ g' : Game, eventsCheckPlay rnd ev g = some g' →
      g'.programState = g.programState → ¬ SwapClick g ev →
      ∃ g', eventsCheckPlay rnd ev g = some g' ∧
        (g'.programState = ProgramState.TRANSITION ↔
          (SwapClick g ev ∧ puzzleSolved g' = some true)) ∧
        (¬ (SwapClick g ev ∧ puzzleSolved g' = some true) →
          g'.programState = ProgramState.PLAY) := by
    intro g' h1 h2 h3
    refine ⟨g', h1, ?_, ?_⟩
    · rw [h2, hplay]
      constructor
      · intro h; cases h
      · intro h; exact absurd h.1 h3
    · intro _; rw [h2, hplay]
  cases ev with
  | quit => exact absurd rfl hq
  | mouseButtonUp b =>
    refine keep _ rfl rfl ?_
    rintro ⟨btn, j, h, -⟩; cases h
  | other =>
    refine keep _ rfl rfl ?_
    rintro ⟨btn, j, h, -⟩; cases h
  | keyUp sym =>
    have hres : ∃ g', eventsCheckPlay rnd (SDL_Event.keyUp sym) g = some g' ∧
        g'.programState = g.programState := by
      simp only [eventsCheckPlay]
      split_ifs <;> exact ⟨_, rfl, rfl⟩
    obtain ⟨g', h1, h2⟩ := hres
    refine keep g' h1 h2 ?_
    rintro ⟨btn, j, h, -⟩; cases h
  | mouseButtonDown btn =>
    cases hmc : g.mouseClicked with
    | true =>
      refine keep _ (eventsCheckPlay_down_held rnd btn g hmc) rfl ?_
      rintro ⟨btn2, j, -, -, h, -⟩
      rw [hmc] at h; cases h
    | false =>
      by_cases hleft : btn.button = SDL_BUTTON_LEFT
      · have hstart := eventsCheckPlay_leftDown rnd btn g hmc hleft
        rcases leftClickScan_cases btn { g with mouseClicked := true } hd with
          ⟨hno, hscan⟩ | ⟨j, hfirst, hscan⟩
        · refine keep _ (hstart.trans hscan) rfl ?_
          rintro ⟨btn2, j, h, -, -, -, hf, -⟩
          cases h
          exact hf.not_noHit hno
        · cases hms : g.moveState with
          | NONE =>
            refine keep _ (hstart.trans (hscan.trans (onTileHit_none _ j hms))) rfl ?_
            rintro ⟨btn2, j2, -, -, -, h, -⟩
            rw [hms] at h; cases h
          | SELECTED =>
            obtain ⟨hs0, hs16⟩ := hsel hms
            by_cases hjs : (j : Int) = g.selectedI
            · refine keep _ (hstart.trans (hscan.trans
                (onTileHit_same _ j hms hjs.symm))) rfl ?_
              rintro ⟨btn2, j2, h, -, -, -, hf, hne⟩
              cases h
              have : j2 = j := hf.unique hfirst
              subst this
              exact hne hjs
            · have hsI : g.selectedI = ((g.selectedI.toNat : Nat) : Int) :=
                (Int.toNat_of_nonneg hs0).symm
              have hsl : g.selectedI.toNat < g.dstImgCoords.length := by omega
              have hne : j ≠ g.selectedI.toNat := by
                intro e; apply hjs; rw [hsI, e]
              obtain ⟨g', b, hg', hsolved, -, -, -, hphase, -⟩ :=
                onTileHit_swap { g with mouseClicked := true } j g.selectedI.toNat hd ho hms
                  hsI hfirst.1 hsl hne
              have hsc : SwapClick g (SDL_Event.mouseButtonDown btn) :=
                ⟨btn, j, rfl, hleft, hmc, hms, hfirst, hjs⟩
              refine ⟨g', hstart.trans (hscan.trans hg'), ?_, ?_⟩
              · cases b
                · simp only [Bool.false_eq_true, if_false] at hphase
                  rw [hphase, hsolved]
                  change g.programState = ProgramState.TRANSITION ↔ _
                  rw [hplay]
                  constructor
                  · intro h; cases h
                  · rintro ⟨-, h⟩; cases h
                · simp only [if_true] at hphase
                  rw [hphase, hsolved]
                  exact ⟨fun _ => ⟨hsc, rfl⟩, fun _ => rfl⟩
              · intro hn
                cases b
                · simp only [Bool.false_eq_true, if_false] at hphase
                  rw [hphase]
                  exact hplay
                · exact absurd ⟨hsc, hsolved⟩ hn
      · have hnot : ¬ SwapClick g (SDL_Event.mouseButtonDown btn) := by
          rintro ⟨btn2, j, h, hl, -⟩
          cases h
          exact hleft hl
        have hres : ∃ g', eventsCheckPlay rnd (SDL_Event.mouseButtonDown btn) g = some g' ∧
            g'.programState = g.programState := by
          unfold eventsCheckPlay
          rw [hmc]
          simp only [Bool.not_false, if_true, hleft, if_false]
          split_ifs <;> exact ⟨_, rfl, rfl⟩
        obtain ⟨g', h1, h2⟩ := hres
        exact keep g' h1 h2 hnot

/-- Witness of C3: slots 3 and 7 hold each other's rectangle and tile 3 is selected; the
click at (450, 70) first hits slot 7. -/
theorem eventsCheckPlay_transition_iff_solving_swap_witness :
    ∃ g', eventsCheckPlay noDraws (leftClick 450 70) exchanged37Game = some g' ∧
      (g'.programState = ProgramState.TRANSITION ↔
        (SwapClick exchanged37Game (leftClick 450 70) ∧ puzzleSolved g' = some true)) ∧
      (¬ (SwapClick exchanged37Game (leftClick 450 70) ∧ puzzleSolved g' = some true) →
        g'.programState = ProgramState.PLAY) :=
  eventsCheckPlay_transition_iff_solving_swap noDraws exchanged37Game (leftClick 450 70)
    (by decide) (by decide) (by decide) (by decide) (by decide)

/-- C4: in the Play phase with no tile selected and the button released, a left click at
`(px, py)` is handled without fault and modifies no slot; if `j` is the smallest index whose
slot contains the point (inclusive on all four edges) the selection becomes `j`, and if no
slot contains the point the selection stays empty. -/
theorem leftClick_selects_smallest_containing (loaded : List Texture)
    (rnd : ShuffleDraws) (g : Game) (px py : Int)
    (hplay : g.programState = ProgramState.PLAY)
    (hd : g.dstImgCoords.length = puzzlePiecesTotal)
    (hmc : g.mouseClicked = false)
    (hnone : g.moveState = MoveState.NONE) (hsI : g.selectedI = -1) :
    ∃ g', mainLoopBody loaded rnd (leftClick px py) g = some g' ∧
      g'.dstImgCoords = g.dstImgCoords ∧
      (∀ j (hj : j < g.dstImgCoords.length), Contains g.dstImgCoords[j] px py →
        (∀ i (hi : i < j), ¬ Contains g.dstImgCoords[i] px py) →
        g'.selectedI = (j : Int) ∧ g'.moveState = MoveState.SELECTED) ∧
      ((∀ r ∈ g.dstImgCoords, ¬ Contains r px py) →
        g'.selectedI = -1 ∧ g'.moveState = MoveState.NONE) := by
  have hstart := eventsCheckPlay_leftDown rnd
    { button := SDL_BUTTON_LEFT, x := px, y := py } g hmc rfl
  rw [mainLoopBody_play _ _ _ _ hplay]
  rcases leftClickScan_cases { button := SDL_BUTTON_LEFT, x := px, y := py }
      { g with mouseClicked := true } hd with ⟨hno, hscan⟩ | ⟨j0, hfirst, hscan⟩
  · refine ⟨_, hstart.trans hscan, rfl, ?_, ?_⟩
    · intro j hj hc _
      have := hno _ (List.getElem_mem hj)
      rw [mouseWithinRectBound_false_iff] at this
      exact absurd hc this
    · intro _
      exact ⟨hsI, hnone⟩
  · refine ⟨_, hstart.trans (hscan.trans (onTileHit_none _ j0 hnone)), rfl, ?_, ?_⟩
    · intro j hj hc hmin
      have hf : FirstHit { button := SDL_BUTTON_LEFT, x := px, y := py } g.dstImgCoords j :=
        ⟨hj, (mouseWithinRectBound_iff _ _).2 hc,
          fun i hi => (mouseWithinRectBound_false_iff _ _).2 (hmin i hi)⟩
      have : j = j0 := hf.unique hfirst
      subst this
      exact ⟨rfl, rfl⟩
    · intro hall
      obtain ⟨hj, hhit, -⟩ := hfirst
      exact absurd ((mouseWithinRectBound_iff _ _).1 hhit) (hall _ (List.getElem_mem hj))

/-- Witness of C4: the reference arrangement with nothing selected. -/
theorem leftClick_selects_smallest_containing_witness :
    ∃ g', mainLoopBody [11, 12, 13] noDraws (leftClick 400 120) solvedGame = some g' ∧
      g'.dstImgCoords = solvedGame.dstImgCoords ∧
      (∀ j (hj : j < solvedGame.dstImgCoords.length),
        Contains solvedGame.dstImgCoords[j] 400 120 →
        (∀ i (hi : i < j), ¬ Contains solvedGame.dstImgCoords[i] 400 120) →
        g'.selectedI = (j : Int) ∧ g'.moveState = MoveState.SELECTED) ∧
      ((∀ r ∈ solvedGame.dstImgCoords, ¬ Contains r 400 120) →
        g'.selectedI = -1 ∧ g'.moveState = MoveState.NONE) :=
  leftClick_selects_smallest_containing [11, 12, 13] noDraws solvedGame 400 120
    (by decide) (by decide) (by decide) (by decide) (by decide)

/-- C5: in the Play phase with nothing selected and the button released, a left click whose
first hit slot is `a` selects tile `a`; after the release, a second left click whose first
hit slot is again `a` leaves no tile selected, `dstImgCoords` as it was before the two
clicks, and the phase at `PLAY`. -/
theorem select_then_reclick_deselects (loaded : List Texture) (rnd : ShuffleDraws) (g : Game)
    (p1 p2 up : SDL_MouseButtonEvent) (a : Nat)
    (hplay : g.programState = ProgramState.PLAY)
    (hd : g.dstImgCoords.length = puzzlePiecesTotal)
    (hmc : g.mouseClicked = false)
    (hnone : g.moveState = MoveState.NONE)
    (hl1 : p1.button = SDL_BUTTON_LEFT) (hl2 : p2.button = SDL_BUTTON_LEFT)
    (h1 : FirstHit p1 g.dstImgCoords a) (h2 : FirstHit p2 g.dstImgCoords a) :
    (∃ g1, mainLoop loaded [(rnd, SDL_Event.mouseButtonDown p1)] g = some g1 ∧
      g1.selectedI = (a : Int) ∧ g1.moveState = MoveState.SELECTED) ∧
    ∃ g3, mainLoop loaded [(rnd, SDL_Event.mouseButtonDown p1), (rnd, SDL_Event.mouseButtonUp up),
        (rnd, SDL_Event.mouseButtonDown p2)] g = some g3 ∧
      g3.selectedI = -1 ∧ g3.moveState = MoveState.NONE ∧
      g3.dstImgCoords = g.dstImgCoords ∧ g3.programState = ProgramState.PLAY := by
  obtain ⟨g1, e1, -, i1, s1, d1, -, ph1⟩ := select_step rnd p1 g a hd hmc hl1 hnone h1
  obtain ⟨g2, e2, m2, i2, s2, d2, -, ph2⟩ := release_step rnd up g1
  have d2g : g2.dstImgCoords = g.dstImgCoords := d2.trans d1
  obtain ⟨g3, e3, -, i3, s3, d3, -, ph3⟩ := reclick_step rnd p2 g2 a (d2g ▸ hd) m2 hl2
    (s2.trans s1) (i2.trans i1) (d2g ▸ h2)
  constructor
  · refine ⟨g1, ?_, i1, s1⟩
    rw [mainLoop_cons_play _ _ _ _ _ _ hplay e1]
    rfl
  · refine ⟨g3, ?_, i3, s3, d3.trans d2g, ph3.trans (ph2.trans (ph1.trans hplay))⟩
    rw [mainLoop_cons_play _ _ _ _ _ _ hplay e1,
      mainLoop_cons_play _ _ _ _ _ _ (ph1.trans hplay) e2,
      mainLoop_cons_play _ _ _ _ _ _ (ph2.trans (ph1.trans hplay)) e3]
    rfl

/-- Witness of C5: two clicks inside slot 7 of the reference arrangement. -/
theorem select_then_reclick_deselects_witness :
    (∃ g1, mainLoop [11, 12, 13] [(noDraws, leftClick 450 170)] solvedGame = some g1 ∧
      g1.selectedI = 7 ∧ g1.moveState = MoveState.SELECTED) ∧
    ∃ g3, mainLoop [11, 12, 13] [(noDraws, leftClick 450 170),
        (noDraws, SDL_Event.mouseButtonUp { button := SDL_BUTTON_LEFT, x := 450, y := 170 }),
        (noDraws, leftClick 420 200)] solvedGame = some g3 ∧
      g3.selectedI = -1 ∧ g3.moveState = MoveState.NONE ∧
      g3.dstImgCoords = solvedGame.dstImgCoords ∧ g3.programState = ProgramState.PLAY :=
  select_then_reclick_deselects [11, 12, 13] noDraws solvedGame
    { button := SDL_BUTTON_LEFT, x := 450, y := 170 }
    { button := SDL_BUTTON_LEFT, x := 420, y := 200 }
    { button := SDL_BUTTON_LEFT, x := 450, y := 170 } 7
    (by decide) (by decide) (by decide) (by decide) (by decide) (by decide) (by decide)
    (by decide)

/-- C6: in the Play phase, a left click at a point that no slot accepts under the inclusive
test is handled without fault and leaves the selection, all slots, the reference layout,
the library and its index, the reference-display flag and the phase unchanged, whether or
not a tile is selected. -/
theorem leftClick_outside_changes_nothing (loaded : List Texture) (rnd : ShuffleDraws) (g : Game)
    (btn : SDL_MouseButtonEvent)
    (hplay : g.programState = ProgramState.PLAY)
    (hd : g.dstImgCoords.length = puzzlePiecesTotal)
    (hl : btn.button = SDL_BUTTON_LEFT)
    (hno : NoHit btn g.dstImgCoords) :
    ∃ g', mainLoopBody loaded rnd (SDL_Event.mouseButtonDown btn) g = some g' ∧
      g'.selectedI = g.selectedI ∧ g'.moveState = g.moveState ∧
      g'.dstImgCoords = g.dstImgCoords ∧
      g'.dstImgCoordsOriginal = g.dstImgCoordsOriginal ∧
      g'.puzzleTextures = g.puzzleTextures ∧ g'.puzzleCurrent = g.puzzleCurrent ∧
      g'.miniRefImg = g.miniRefImg ∧ g'.programState = ProgramState.PLAY := by
  rw [mainLoopBody_play _ _ _ _ hplay]
  cases hmc : g.mouseClicked with
  | true =>
    exact ⟨g, eventsCheckPlay_down_held rnd btn g hmc, rfl, rfl, rfl, rfl, rfl, rfl, rfl, hplay⟩
  | false =>
    exact ⟨_, (eventsCheckPlay_leftDown rnd btn g hmc hl).trans
      (leftClickScan_noHit btn { g with mouseClicked := true } hno _ _ (by
        show 0 + puzzlePiecesTotal ≤ g.dstImgCoords.length
        omega)), rfl, rfl, rfl, rfl, rfl, rfl, rfl, hplay⟩

/-- Witness of C6: tile 3 selected, click at (50, 50), left of the board. -/
theorem leftClick_outside_changes_nothing_witness :
    ∃ g', mainLoopBody [11, 12, 13] noDraws (leftClick 50 50) selected3Game = some g' ∧
      g'.selectedI = selected3Game.selectedI ∧ g'.moveState = selected3Game.moveState ∧
      g'.dstImgCoords = selected3Game.dstImgCoords ∧
      g'.dstImgCoordsOriginal = selected3Game.dstImgCoordsOriginal ∧
      g'.puzzleTextures = selected3Game.puzzleTextures ∧
      g'.puzzleCurrent = selected3Game.puzzleCurrent ∧
      g'.miniRefImg = selected3Game.miniRefImg ∧ g'.programState = ProgramState.PLAY :=
  leftClick_outside_changes_nothing [11, 12, 13] noDraws selected3Game
    { button := SDL_BUTTON_LEFT, x := 50, y := 50 }
    (by decide) (by decide) (by decide) (by decide)

/-- C7, as the code has it: in the Play phase with a tile selected, a right button press at
any pointer position clears the selection (`selectedI = -1`, `moveState = NONE`) and
modifies no slot when `mouseClicked` is false; when `mouseClicked` is true (an earlier press
has not been released) the press changes nothing. -/
theorem rightClick_clears_selection_unless_held (loaded : List Texture)
    (rnd : ShuffleDraws) (g : Game)
    (btn : SDL_MouseButtonEvent)
    (hplay : g.programState = ProgramState.PLAY)
    (hr : btn.button = SDL_BUTTON_RIGHT)
    (hsel : g.moveState = MoveState.SELECTED) :
    (g.mouseClicked = false →
      ∃ g', mainLoopBody loaded rnd (SDL_Event.mouseButtonDown btn) g = some g' ∧
        g'.selectedI = -1 ∧ g'.moveState = MoveState.NONE ∧
        g'.dstImgCoords = g.dstImgCoords) ∧
    (g.mouseClicked = true →
      mainLoopBody loaded rnd (SDL_Event.mouseButtonDown btn) g = some g) := by
  rw [mainLoopBody_play _ _ _ _ hplay]
  constructor
  · intro hmc
    refine ⟨{ g with mouseClicked := true, selectedI := -1, moveState := MoveState.NONE },
      ?_, rfl, rfl, rfl⟩
    have hrl : ¬ (SDL_BUTTON_RIGHT = SDL_BUTTON_LEFT) := by decide
    unfold eventsCheckPlay
    rw [hmc]
    simp only [Bool.not_false, if_true, hr, hrl, if_false, hsel]
  · intro hmc
    exact eventsCheckPlay_down_held rnd btn g hmc

/-- Witness of C7 as amended: tile 3 selected in the reference arrangement. -/
theorem rightClick_clears_selection_unless_held_witness :
    (selected3Game.mouseClicked = false →
      ∃ g', mainLoopBody [11, 12, 13] noDraws (rightClick 5 5) selected3Game = some g' ∧
        g'.selectedI = -1 ∧ g'.moveState = MoveState.NONE ∧
        g'.dstImgCoords = selected3Game.dstImgCoords) ∧
    (selected3Game.mouseClicked = true →
      mainLoopBody [11, 12, 13] noDraws (rightClick 5 5) selected3Game = some selected3Game) :=
  rightClick_clears_selection_unless_held [11, 12, 13] noDraws selected3Game
    { button := SDL_BUTTON_RIGHT, x := 5, y := 5 } (by decide) (by decide) (by decide)

/-- Counterexample to C7 as stated: after startup, a left press inside a tile selects it
(tile 6 here); a right press that arrives before any release is ignored, and the tile is
still selected in the Play phase. -/
theorem rightClick_before_release_keeps_selection :
    (mainLoop [11, 12, 13] [(noDraws, SDL_Event.other), (noDraws, leftClick 450 170)]
        initialGame).map (fun g => (g.programState, g.moveState, g.selectedI)) =
      some (ProgramState.PLAY, MoveState.SELECTED, 6) ∧
    (mainLoop [11, 12, 13] [(noDraws, SDL_Event.other), (noDraws, leftClick 450 170),
        (noDraws, rightClick 450 170)]
        initialGame).map (fun g => (g.programState, g.moveState, g.selectedI)) =
      some (ProgramState.PLAY, MoveState.SELECTED, 6) := by
  decide

/-- C8: in the Play phase with nothing selected, for two pointers whose first hit slots `a`
and `b` are distinct, clicking the first then the second and clicking the second then the
first (each click preceded by a release) both run without fault, yield the same
`dstImgCoords`, and both end with nothing selected. -/
theorem swap_clicks_commute (loaded : List Texture) (rnd : ShuffleDraws) (g : Game)
    (p1 p2 up : SDL_MouseButtonEvent) (a b : Nat)
    (hplay : g.programState = ProgramState.PLAY)
    (hd : g.dstImgCoords.length = puzzlePiecesTotal)
    (ho : g.dstImgCoordsOriginal.length = puzzlePiecesTotal)
    (hnone : g.moveState = MoveState.NONE)
    (hl1 : p1.button = SDL_BUTTON_LEFT) (hl2 : p2.button = SDL_BUTTON_LEFT)
    (h1 : FirstHit p1 g.dstImgCoords a) (h2 : FirstHit p2 g.dstImgCoords b)
    (hab : a ≠ b) :
    ∃ g12 g21,
      mainLoop loaded [(rnd, SDL_Event.mouseButtonUp up), (rnd, SDL_Event.mouseButtonDown p1),
        (rnd, SDL_Event.mouseButtonUp up), (rnd, SDL_Event.mouseButtonDown p2)] g = some g12 ∧
      mainLoop loaded [(rnd, SDL_Event.mouseButtonUp up), (rnd, SDL_Event.mouseButtonDown p2),
        (rnd, SDL_Event.mouseButtonUp up), (rnd, SDL_Event.mouseButtonDown p1)] g = some g21 ∧
      g12.dstImgCoords = g21.dstImgCoords ∧
      g12.selectedI = -1 ∧ g12.moveState = MoveState.NONE ∧
      g21.selectedI = -1 ∧ g21.moveState = MoveState.NONE := by
  obtain ⟨g12, e12, d12, i12, s12⟩ :=
    two_clicks_exchange loaded rnd g p1 p2 up a b hplay hd ho hnone hl1 hl2 h1.1 h2.1 h1 h2 hab
  obtain ⟨g21, e21, d21, i21, s21⟩ :=
    two_clicks_exchange loaded rnd g p2 p1 up b a hplay hd ho hnone hl2 hl1 h2.1 h1.1 h2 h1
      (Ne.symm hab)
  refine ⟨g12, g21, e12, e21, ?_, i12, s12, i21, s21⟩
  rw [d12, d21]
  exact List.set_comm _ _ _ (Ne.symm hab)

/-- Witness of C8: clicks inside slots 7 and 0 of the reference arrangement. -/
theorem swap_clicks_commute_witness :
    ∃ g12 g21,
      mainLoop [11, 12, 13] [(noDraws, SDL_Event.mouseButtonUp { button := SDL_BUTTON_LEFT, x := 0, y := 0 }),
        (noDraws, leftClick 450 170),
        (noDraws, SDL_Event.mouseButtonUp { button := SDL_BUTTON_LEFT, x := 0, y := 0 }),
        (noDraws, leftClick 150 70)] solvedGame = some g12 ∧
      mainLoop [11, 12, 13] [(noDraws, SDL_Event.mouseButtonUp { button := SDL_BUTTON_LEFT, x := 0, y := 0 }),
        (noDraws, leftClick 150 70),
        (noDraws, SDL_Event.mouseButtonUp { button := SDL_BUTTON_LEFT, x := 0, y := 0 }),
        (noDraws, leftClick 450 170)] solvedGame = some g21 ∧
      g12.dstImgCoords = g21.dstImgCoords ∧
      g12.selectedI = -1 ∧ g12.moveState = MoveState.NONE ∧
      g21.selectedI = -1 ∧ g21.moveState = MoveState.NONE :=
  swap_clicks_commute [11, 12, 13] noDraws solvedGame
    { button := SDL_BUTTON_LEFT, x := 450, y := 170 }
    { button := SDL_BUTTON_LEFT, x := 150, y := 70 }
    { button := SDL_BUTTON_LEFT, x := 0, y := 0 } 7 0
    (by decide) (by decide) (by decide) (by decide) (by decide) (by decide) (by decide)
    (by decide) (by decide)

/-- C9: on 16-element vectors the two geometry loops of `programStartup` produce the
row-major grid with `T = 100` and `W = 4`: for every `i` below 16, `srcImgBase[i]` is the grid
rectangle with offset (0, 0) and `dstImgCoordsOriginal[i]` the one with offset (100, 20);
just before the first shuffle `dstImgCoords` equals `dstImgCoordsOriginal`; and the two
shuffles that end `programStartup` leave both tables as the loops built them. -/
theorem programStartup_builds_grid (loaded : List Texture) (rnd : ShuffleDraws) (g : Game)
    (hs : g.srcImgBase.length = puzzlePiecesTotal)
    (hd : g.dstImgCoords.length = puzzlePiecesTotal) :
    (∀ i, i < puzzlePiecesTotal →
      (programStartupTables loaded g).srcImgBase[i]? = some (gridRect 100 4 0 0 i) ∧
      (programStartupTables loaded g).dstImgCoordsOriginal[i]? =
        some (gridRect 100 4 100 20 i)) ∧
    (programStartupTables loaded g).dstImgCoords =
      (programStartupTables loaded g).dstImgCoordsOriginal ∧
    (programStartup loaded rnd g).srcImgBase = (programStartupTables loaded g).srcImgBase ∧
    (programStartup loaded rnd g).dstImgCoordsOriginal =
      (programStartupTables loaded g).dstImgCoordsOriginal := by
  refine ⟨?_, rfl, rfl, rfl⟩
  intro i hi
  have h1 : (programStartupTables loaded g).srcImgBase =
      (List.range' 0 g.srcImgBase.length).map (gridRect 100 4 0 0) :=
    setSrcCoords_eq g.srcImgBase 0 0 0 0 (by simp) (by simp) (by simp)
  have h2 : (programStartupTables loaded g).dstImgCoordsOriginal =
      (List.range' 0 g.dstImgCoords.length).map (gridRect 100 4 100 20) :=
    setDstCoords_eq g.dstImgCoords 0 0 0 1 (by simp) (by simp) (by simp)
  rw [h1, h2, hs, hd, List.getElem?_map, List.getElem?_map, List.getElem?_range' _ _ hi]
  simp

/-- Witness of C9: the vectors as their initialisers leave them; slot 7 of the reference
layout is at (400, 120) and samples the source region at (300, 100). -/
theorem programStartup_builds_grid_witness :
    (programStartupTables [11, 12, 13] initialGame).srcImgBase[7]? =
      some { x := 300, y := 100, w := 100, h := 100 } ∧
    (programStartupTables [11, 12, 13] initialGame).dstImgCoordsOriginal[7]? =
      some { x := 400, y := 120, w := 100, h := 100 } :=
  (programStartup_builds_grid [11, 12, 13] noDraws initialGame
    (by decide) (by decide)).1 7 (by decide)

/-- C10: for a library of length `L` and a current index `c` with `0 ≤ c < L` (so `L > 0`),
the skip key in Play and the continue key in Transition both perform the advance step: the
index becomes `c + 1` and the library is left alone when `c + 1 < L`, otherwise the library
is shuffled and the index becomes 0.  In both handlers the library afterwards is a
permutation of the one before, still of length `L`, and the new index lies in `[0, L)`. -/
theorem advance_keeps_index_in_range (rnd : ShuffleDraws) (g : Game)
    (h0 : 0 ≤ g.puzzleCurrent)
    (hc : g.puzzleCurrent < (g.puzzleTextures.length : Int)) :
    (∃ g', eventsCheckPlay rnd (SDL_Event.keyUp SDLK_s) g = some g' ∧
      Advanced rnd g g' ∧ g'.puzzleTextures.Perm g.puzzleTextures ∧
      g'.puzzleTextures.length = g.puzzleTextures.length ∧
      0 ≤ g'.puzzleCurrent ∧ g'.puzzleCurrent < (g.puzzleTextures.length : Int)) ∧
    (Advanced rnd g (eventsCheckTransition rnd (SDL_Event.keyUp SDLK_SPACE) g) ∧
      (eventsCheckTransition rnd (SDL_Event.keyUp SDLK_SPACE) g).puzzleTextures.Perm
        g.puzzleTextures ∧
      (eventsCheckTransition rnd (SDL_Event.keyUp SDLK_SPACE) g).puzzleTextures.length =
        g.puzzleTextures.length ∧
      0 ≤ (eventsCheckTransition rnd (SDL_Event.keyUp SDLK_SPACE) g).puzzleCurrent ∧
      (eventsCheckTransition rnd (SDL_Event.keyUp SDLK_SPACE) g).puzzleCurrent <
        (g.puzzleTextures.length : Int)) := by
  obtain ⟨g', e, hcur, htex, -⟩ := eventsCheckPlay_skip rnd g
  obtain ⟨hcur2, htex2, -⟩ := eventsCheckTransition_continue rnd g
  by_cases hlast : g.puzzleCurrent + 1 = (g.puzzleTextures.length : Int)
  · have hnlt : ¬ (g.puzzleCurrent + 1 < (g.puzzleTextures.length : Int)) := by omega
    rw [if_pos hlast] at hcur htex hcur2 htex2
    refine ⟨⟨g', e, ⟨fun h => absurd h hnlt, fun _ => ⟨hcur, htex⟩⟩, ?_, ?_, ?_, ?_⟩,
      ⟨fun h => absurd h hnlt, fun _ => ⟨hcur2, htex2⟩⟩, ?_, ?_, ?_, ?_⟩
    · rw [htex]; exact shuffle_perm _ _
    · rw [htex]; exact shuffle_length _ _
    · omega
    · omega
    · rw [htex2]; exact shuffle_perm _ _
    · rw [htex2]; exact shuffle_length _ _
    · omega
    · omega
  · have hlt : g.puzzleCurrent + 1 < (g.puzzleTextures.length : Int) := by omega
    rw [if_neg hlast] at hcur htex hcur2 htex2
    refine ⟨⟨g', e, ⟨fun _ => ⟨hcur, htex⟩, fun h => absurd hlt h⟩, ?_, ?_, ?_, ?_⟩,
      ⟨fun _ => ⟨hcur2, htex2⟩, fun h => absurd hlt h⟩, ?_, ?_, ?_, ?_⟩
    · rw [htex]
    · rw [htex]
    · omega
    · omega
    · rw [htex2]
    · rw [htex2]
    · omega
    · omega

/-- Witness of C10: three puzzles loaded, the first one current. -/
theorem advance_keeps_index_in_range_witness :
    ∃ g', eventsCheckPlay noDraws (SDL_Event.keyUp SDLK_s) solvedGame = some g' ∧
      Advanced noDraws solvedGame g' ∧ g'.puzzleTextures.Perm solvedGame.puzzleTextures ∧
      g'.puzzleTextures.length = solvedGame.puzzleTextures.length ∧
      0 ≤ g'.puzzleCurrent ∧ g'.puzzleCurrent < (solvedGame.puzzleTextures.length : Int) :=
  (advance_keeps_index_in_range noDraws solvedGame (by decide) (by decide)).1

/-- C13: in every Play-phase state, solved or not, with or without a selection, the skip key
is handled without fault and, for the same draws, leaves the library index, the library
order and the slots exactly as the continue key leaves them when the same state is in the
Transition phase; the slots are a permutation of the former ones, the selection is cleared
and the phase stays `PLAY` (the continue key ends in `PLAY` as well). -/
theorem skip_matches_continue (loaded : List Texture) (rnd : ShuffleDraws) (g : Game)
    (hplay : g.programState = ProgramState.PLAY) :
    ∃ g' gc, mainLoopBody loaded rnd (SDL_Event.keyUp SDLK_s) g = some g' ∧
      mainLoopBody loaded rnd (SDL_Event.keyUp SDLK_SPACE)
        { g with programState := ProgramState.TRANSITION } = some gc ∧
      g'.puzzleCurrent = gc.puzzleCurrent ∧ g'.puzzleTextures = gc.puzzleTextures ∧
      g'.dstImgCoords = gc.dstImgCoords ∧ g'.dstImgCoords.Perm g.dstImgCoords ∧
      g'.selectedI = -1 ∧ g'.moveState = MoveState.NONE ∧
      g'.programState = ProgramState.PLAY ∧ gc.programState = ProgramState.PLAY := by
  obtain ⟨g', e, hcur, htex, hdst, -, hsI, hms, hp, -⟩ := eventsCheckPlay_skip rnd g
  obtain ⟨ccur, ctex, cdst, -, -, -, cp, -⟩ :=
    eventsCheckTransition_continue rnd { g with programState := ProgramState.TRANSITION }
  refine ⟨g', _, (mainLoopBody_play loaded rnd _ g hplay).trans e, rfl, ?_, ?_, ?_, ?_,
    hsI, hms, hp.trans hplay, cp⟩
  · exact hcur.trans ccur.symm
  · exact htex.trans ctex.symm
  · exact hdst.trans cdst.symm
  · rw [hdst]; exact shuffle_perm _ _

/-- Witness of C13: the skip key with tile 3 selected on the reference arrangement. -/
theorem skip_matches_continue_witness :
    ∃ g' gc, mainLoopBody [11, 12, 13] nearlySolvedDraws (SDL_Event.keyUp SDLK_s)
        selected3Game = some g' ∧
      mainLoopBody [11, 12, 13] nearlySolvedDraws (SDL_Event.keyUp SDLK_SPACE)
        { selected3Game with programState := ProgramState.TRANSITION } = some gc ∧
      g'.puzzleCurrent = gc.puzzleCurrent ∧ g'.puzzleTextures = gc.puzzleTextures ∧
      g'.dstImgCoords = gc.dstImgCoords ∧ g'.dstImgCoords.Perm selected3Game.dstImgCoords ∧
      g'.selectedI = -1 ∧ g'.moveState = MoveState.NONE ∧
      g'.programState = ProgramState.PLAY ∧ gc.programState = ProgramState.PLAY :=
  skip_matches_continue [11, 12, 13] nearlySolvedDraws selected3Game (by decide)

/-- C14: events without a matching rule change nothing.  In the Transition phase every event
other than Quit and the release of the space key (every button press of any button, every
button release, the release of `s` or of any key but space, every other event type) leaves
the whole state as it is, hence the phase, the slots, the selection, the library index and
the reference-display flag; in the Play phase the release of the space key does the same. -/
theorem unmatched_events_change_nothing (loaded : List Texture) (rnd : ShuffleDraws)
    (g : Game) (ev : SDL_Event) :
    (g.programState = ProgramState.TRANSITION → ev ≠ SDL_Event.quit →
      ev ≠ SDL_Event.keyUp SDLK_SPACE → mainLoopBody loaded rnd ev g = some g) ∧
    (g.programState = ProgramState.PLAY →
      mainLoopBody loaded rnd (SDL_Event.keyUp SDLK_SPACE) g = some g) := by
  constructor
  · intro ht hq hk
    simp only [mainLoopBody, ht, eventsCheckTransition_ignored rnd ev g hq hk]
  · intro hp
    rw [mainLoopBody_play loaded rnd _ g hp]
    have hne : ¬ (SDLK_SPACE = SDLK_s) := by decide
    simp only [eventsCheckPlay, hne, if_false]

/-- Witness of C14: the release of `s` in the Transition phase, and the release of space in
the Play phase with tile 3 selected. -/
theorem unmatched_events_change_nothing_witness :
    mainLoopBody [11, 12, 13] nearlySolvedDraws (SDL_Event.keyUp SDLK_s)
        { solvedGame with programState := ProgramState.TRANSITION } =
      some { solvedGame with programState := ProgramState.TRANSITION } ∧
    mainLoopBody [11, 12, 13] nearlySolvedDraws (SDL_Event.keyUp SDLK_SPACE) selected3Game =
      some selected3Game :=
  ⟨(unmatched_events_change_nothing [11, 12, 13] nearlySolvedDraws
      { solvedGame with programState := ProgramState.TRANSITION }
      (SDL_Event.keyUp SDLK_s)).1 (by decide) (by decide) (by decide),
    (unmatched_events_change_nothing [11, 12, 13] nearlySolvedDraws selected3Game
      SDL_Event.other).2 (by decide)⟩

/-- C15: in the Play phase and in the Transition phase a Quit event sets the phase to
`SHUTDOWN` and changes no other variable; once the phase is `SHUTDOWN` the loop of `main`
handles none of the inputs that follow and keeps the state. -/
theorem quit_shuts_down (loaded : List Texture) (rnd : ShuffleDraws) (g : Game)
    (inputs : List (ShuffleDraws × SDL_Event)) :
    (g.programState = ProgramState.PLAY ∨ g.programState = ProgramState.TRANSITION →
      mainLoopBody loaded rnd SDL_Event.quit g =
        some { g with programState := ProgramState.SHUTDOWN }) ∧
    (g.programState = ProgramState.SHUTDOWN → mainLoop loaded inputs g = some g) := by
  constructor
  · rintro (hp | ht)
    · simp only [mainLoopBody, hp, eventsCheckPlay]
    · simp only [mainLoopBody, ht, eventsCheckTransition]
  · intro hs
    cases inputs with
    | nil => rfl
    | cons hd rest =>
      obtain ⟨r, e⟩ := hd
      rw [mainLoop, if_pos hs]

/-- Witness of C15: Quit with tile 3 selected, then a click that is no longer handled. -/
theorem quit_shuts_down_witness :
    mainLoopBody [11, 12, 13] noDraws SDL_Event.quit selected3Game =
      some { selected3Game with programState := ProgramState.SHUTDOWN } ∧
    mainLoop [11, 12, 13] [(noDraws, leftClick 450 170)]
        { selected3Game with programState := ProgramState.SHUTDOWN } =
      some { selected3Game with programState := ProgramState.SHUTDOWN } :=
  ⟨(quit_shuts_down [11, 12, 13] noDraws selected3Game []).1 (Or.inl (by decide)),
    (quit_shuts_down [11, 12, 13] noDraws
      { selected3Game with programState := ProgramState.SHUTDOWN }
      [(noDraws, leftClick 450 170)]).2 (by decide)⟩

/-- C16, as the code has it: in the Play phase, whatever the selection state, a middle
button press taken while `mouseClicked` is false flips the reference-display flag
(`DISPLAY` becomes `HIDE`, `HIDE` becomes `DISPLAY`) and leaves the slots, the selection,
the library and its index and the phase unchanged; while `mouseClicked` is true (an earlier
press has not been released) the press changes nothing, the flag included. -/
theorem middleClick_flips_flag_unless_held (loaded : List Texture) (rnd : ShuffleDraws)
    (g : Game) (btn : SDL_MouseButtonEvent)
    (hplay : g.programState = ProgramState.PLAY)
    (hm : btn.button = SDL_BUTTON_MIDDLE) :
    (g.mouseClicked = false →
      ∃ g', mainLoopBody loaded rnd (SDL_Event.mouseButtonDown btn) g = some g' ∧
        (g.miniRefImg = MiniRefImg.DISPLAY → g'.miniRefImg = MiniRefImg.HIDE) ∧
        (g.miniRefImg = MiniRefImg.HIDE → g'.miniRefImg = MiniRefImg.DISPLAY) ∧
        g'.dstImgCoords = g.dstImgCoords ∧ g'.selectedI = g.selectedI ∧
        g'.moveState = g.moveState ∧ g'.puzzleTextures = g.puzzleTextures ∧
        g'.puzzleCurrent = g.puzzleCurrent ∧ g'.programState = ProgramState.PLAY) ∧
    (g.mouseClicked = true →
      mainLoopBody loaded rnd (SDL_Event.mouseButtonDown btn) g = some g) := by
  rw [mainLoopBody_play _ _ _ _ hplay]
  constructor
  · intro hmc
    have hml : ¬ (SDL_BUTTON_MIDDLE = SDL_BUTTON_LEFT) := by decide
    have hmr : ¬ (SDL_BUTTON_MIDDLE = SDL_BUTTON_RIGHT) := by decide
    cases hf : g.miniRefImg with
    | DISPLAY =>
      refine ⟨{ g with mouseClicked := true, miniRefImg := MiniRefImg.HIDE }, ?_,
        fun _ => rfl, fun hc => (by cases hc), rfl, rfl, rfl, rfl, rfl, hplay⟩
      unfold eventsCheckPlay
      rw [hmc]
      simp only [Bool.not_false, if_true, hm, hml, hmr, if_false, hf]
    | HIDE =>
      have hhd : ¬ (MiniRefImg.HIDE = MiniRefImg.DISPLAY) := by decide
      refine ⟨{ g with mouseClicked := true, miniRefImg := MiniRefImg.DISPLAY }, ?_,
        fun hc => (by cases hc), fun _ => rfl, rfl, rfl, rfl, rfl, rfl, hplay⟩
      unfold eventsCheckPlay
      rw [hmc]
      simp only [Bool.not_false, if_true, hm, hml, hmr, if_false, hf, hhd]
  · intro hmc
    exact eventsCheckPlay_down_held rnd btn g hmc

/-- Witness of C16 as amended: the reference arrangement with tile 3 selected and the
button released. -/
theorem middleClick_flips_flag_unless_held_witness :
    (selected3Game.mouseClicked = false →
      ∃ g', mainLoopBody [11, 12, 13] noDraws (middleClick 5 5) selected3Game = some g' ∧
        (selected3Game.miniRefImg = MiniRefImg.DISPLAY → g'.miniRefImg = MiniRefImg.HIDE) ∧
        (selected3Game.miniRefImg = MiniRefImg.HIDE → g'.miniRefImg = MiniRefImg.DISPLAY) ∧
        g'.dstImgCoords = selected3Game.dstImgCoords ∧
        g'.selectedI = selected3Game.selectedI ∧
        g'.moveState = selected3Game.moveState ∧
        g'.puzzleTextures = selected3Game.puzzleTextures ∧
        g'.puzzleCurrent = selected3Game.puzzleCurrent ∧
        g'.programState = ProgramState.PLAY) ∧
    (selected3Game.mouseClicked = true →
      mainLoopBody [11, 12, 13] noDraws (middleClick 5 5) selected3Game =
        some selected3Game) :=
  middleClick_flips_flag_unless_held [11, 12, 13] noDraws selected3Game
    { button := SDL_BUTTON_MIDDLE, x := 5, y := 5 } (by decide) (by decide)

/-- Counterexample to C16 as stated: after startup, a left press outside the board leaves
`mouseClicked` set; a middle press that arrives before any release is ignored and the
reference-display flag stays `HIDE` in the Play phase, while the same press after a release
shows the reference. -/
theorem middleClick_before_release_keeps_flag :
    (mainLoop [11, 12, 13] [(noDraws, SDL_Event.other), (noDraws, leftClick 50 50)]
        initialGame).map (fun g => (g.programState, g.miniRefImg)) =
      some (ProgramState.PLAY, MiniRefImg.HIDE) ∧
    (mainLoop [11, 12, 13] [(noDraws, SDL_Event.other), (noDraws, leftClick 50 50),
        (noDraws, middleClick 50 50)]
        initialGame).map (fun g => (g.programState, g.miniRefImg)) =
      some (ProgramState.PLAY, MiniRefImg.HIDE) ∧
    (mainLoop [11, 12, 13] [(noDraws, SDL_Event.other), (noDraws, leftClick 50 50),
        (noDraws, release), (noDraws, middleClick 50 50)]
        initialGame).map (fun g => (g.programState, g.miniRefImg)) =
      some (ProgramState.PLAY, MiniRefImg.DISPLAY) := by
  decide

/-- C17, as the code has it: when `dstImgCoords` is a permutation of the 4x4 reference layout
and nothing is selected, a point strictly inside `dstImgCoords[i]` has slot `i` as the first
hit of the scan and is accepted by no other slot, so the scan cannot stop at a lower index.
A left click at that point taken while `mouseClicked` is false is handled without fault and
sets the selection to exactly `i`; while `mouseClicked` is true (an earlier press has not
been released) the click changes nothing and the selection stays empty. -/
theorem interior_click_selects_that_tile_unless_held (loaded : List Texture)
    (rnd : ShuffleDraws) (g : Game) (px py : Int) (i : Nat)
    (hplay : g.programState = ProgramState.PLAY)
    (hperm : g.dstImgCoords.Perm referenceLayout)
    (hnone : g.moveState = MoveState.NONE)
    (hi : i < g.dstImgCoords.length)
    (hin : StrictlyInside g.dstImgCoords[i] px py) :
    (FirstHit { button := SDL_BUTTON_LEFT, x := px, y := py } g.dstImgCoords i ∧
      ∀ k (hk : k < g.dstImgCoords.length), k ≠ i →
        mouseWithinRectBound { button := SDL_BUTTON_LEFT, x := px, y := py }
          g.dstImgCoords[k] = false) ∧
    (g.mouseClicked = false →
      ∃ g', mainLoopBody loaded rnd (leftClick px py) g = some g' ∧
        g'.selectedI = (i : Int) ∧ g'.moveState = MoveState.SELECTED ∧
        g'.dstImgCoords = g.dstImgCoords) ∧
    (g.mouseClicked = true →
      mainLoopBody loaded rnd (leftClick px py) g = some g) := by
  have hlen : g.dstImgCoords.length = puzzlePiecesTotal := by
    rw [hperm.length_eq]; exact referenceLayout_length
  have hnd : g.dstImgCoords.Nodup := hperm.nodup_iff.2 referenceLayout_nodup
  have hcell : ∀ k (hk : k < g.dstImgCoords.length),
      ∃ a, g.dstImgCoords[k] = gridRect 100 4 100 20 a := by
    intro k hk
    have hm : g.dstImgCoords[k] ∈ referenceLayout := hperm.mem_iff.1 (List.getElem_mem hk)
    obtain ⟨a, -, ha⟩ := List.mem_map.1 hm
    exact ⟨a, ha.symm⟩
  have hmiss : ∀ k (hk : k < g.dstImgCoords.length), k ≠ i →
      mouseWithinRectBound { button := SDL_BUTTON_LEFT, x := px, y := py }
        g.dstImgCoords[k] = false := by
    intro k hk hki
    obtain ⟨a, ha⟩ := hcell i hi
    obtain ⟨b, hb⟩ := hcell k hk
    have hab : a ≠ b := by
      intro e
      subst e
      exact hki (hnd.getElem_inj_iff.1 (hb.trans ha.symm))
    rw [mouseWithinRectBound_false_iff, hb]
    exact interior_misses_other_cell a b px py hab (ha ▸ hin)
  have hfirst : FirstHit { button := SDL_BUTTON_LEFT, x := px, y := py } g.dstImgCoords i :=
    ⟨hi, (mouseWithinRectBound_iff _ _).2
        ⟨le_of_lt hin.1, le_of_lt hin.2.1, le_of_lt hin.2.2.1, le_of_lt hin.2.2.2⟩,
      fun k hk => hmiss k (by omega) (by omega)⟩
  refine ⟨⟨hfirst, hmiss⟩, ?_, ?_⟩
  · intro hmc
    obtain ⟨g', e, -, hsI, hms, hdst, -, -⟩ :=
      select_step rnd { button := SDL_BUTTON_LEFT, x := px, y := py } g i hlen hmc rfl hnone
        hfirst
    exact ⟨g', (mainLoopBody_play loaded rnd _ g hplay).trans e, hsI, hms, hdst⟩
  · intro hmc
    exact (mainLoopBody_play loaded rnd _ g hplay).trans
      (eventsCheckPlay_down_held rnd _ g hmc)

/-- Witness of C17 as amended: the board as startup leaves it when every exchange of the
shuffle takes position 0, a rotation of the reference layout in which slot 15 holds the
rectangle at (100, 20); with the button released the click at (150, 70) selects tile 15. -/
theorem interior_click_selects_that_tile_unless_held_witness :
    ∃ g', mainLoopBody [11, 12, 13] noDraws (leftClick 150 70)
        (programStartup [11, 12, 13] noDraws initialGame) = some g' ∧
      g'.selectedI = 15 ∧ g'.moveState = MoveState.SELECTED :=
  ((interior_click_selects_that_tile_unless_held [11, 12, 13] noDraws
    (programStartup [11, 12, 13] noDraws initialGame) 150 70 15
    (by decide) (by decide) (by decide) (by decide) (by decide)).2.1 (by decide)).imp
    (fun _ h => ⟨h.1, h.2.1, h.2.2.1⟩)

/-- Counterexample to C17 as stated: after startup the board is a permutation of the
reference layout, nothing is selected and (150, 70) is strictly inside `dstImgCoords[15]`;
a right press sets `mouseClicked`, and the left press at (150, 70) that arrives before any
release is ignored, so nothing is selected afterwards.  The same press after a release
selects tile 15. -/
theorem interior_click_before_release_selects_nothing :
    (mainLoop [11, 12, 13] [(noDraws, SDL_Event.other)] initialGame).map
        (fun g => (decide (g.dstImgCoords.Perm referenceLayout), g.moveState,
          (g.dstImgCoords[15]?).map (fun r => decide (StrictlyInside r 150 70)))) =
      some (true, MoveState.NONE, some true) ∧
    (mainLoop [11, 12, 13] [(noDraws, SDL_Event.other), (noDraws, rightClick 150 70),
        (noDraws, leftClick 150 70)]
        initialGame).map (fun g => (g.programState, g.moveState, g.selectedI)) =
      some (ProgramState.PLAY, MoveState.NONE, -1) ∧
    (mainLoop [11, 12, 13] [(noDraws, SDL_Event.other), (noDraws, rightClick 150 70),
        (noDraws, release), (noDraws, leftClick 150 70)]
        initialGame).map (fun g => (g.programState, g.moveState, g.selectedI)) =
      some (ProgramState.PLAY, MoveState.SELECTED, 15) := by
  decide

/-- C18, as the code has it: in the reference layout that startup builds, a point that
`mouseWithinRectBound` accepts for two distinct slot indices lies on an edge line of both
rectangles; a point strictly inside one slot is accepted for that slot and for no other, so
the hit test has exactly one candidate slot at every point strictly inside a slot. -/
theorem double_hits_only_on_shared_edges (loaded : List Texture) (rnd : ShuffleDraws)
    (btn : SDL_MouseButtonEvent) (i j : Nat) (ri rj : SDL_Rect)
    (hi : (programStartup loaded rnd initialGame).dstImgCoordsOriginal[i]? = some ri)
    (hj : (programStartup loaded rnd initialGame).dstImgCoordsOriginal[j]? = some rj)
    (hij : i ≠ j) :
    (mouseWithinRectBound btn ri = true → mouseWithinRectBound btn rj = true →
      OnEdge ri btn.x btn.y ∧ OnEdge rj btn.x btn.y) ∧
    (StrictlyInside ri btn.x btn.y →
      mouseWithinRectBound btn ri = true ∧ mouseWithinRectBound btn rj = false) := by
  have horig := (programStartup_inv loaded rnd initialGame inv_initialGame).2.2.1
  rw [horig] at hi hj
  have ei := referenceLayout_getElem? i ri hi
  have ej := referenceLayout_getElem? j rj hj
  subst ei ej
  constructor
  · intro h1 h2
    exact double_hit_on_edges i j btn.x btn.y hij ((mouseWithinRectBound_iff _ _).1 h1)
      ((mouseWithinRectBound_iff _ _).1 h2)
  · intro hin
    refine ⟨(mouseWithinRectBound_iff _ _).2
      ⟨le_of_lt hin.1, le_of_lt hin.2.1, le_of_lt hin.2.2.1, le_of_lt hin.2.2.2⟩, ?_⟩
    rw [mouseWithinRectBound_false_iff]
    exact interior_misses_other_cell i j btn.x btn.y hij hin

/-- Witness of C18 as amended: slots 0 and 1 and the point (200, 50) on their common
edge. -/
theorem double_hits_only_on_shared_edges_witness :
    OnEdge { x := 100, y := 20, w := 100, h := 100 } 200 50 ∧
      OnEdge { x := 200, y := 20, w := 100, h := 100 } 200 50 :=
  (double_hits_only_on_shared_edges [11, 12, 13] noDraws
    { button := SDL_BUTTON_LEFT, x := 200, y := 50 } 0 1
    { x := 100, y := 20, w := 100, h := 100 } { x := 200, y := 20, w := 100, h := 100 }
    (by decide) (by decide) (by decide)).1 (by decide) (by decide)

/-- Counterexample to C18 as stated: in the reference layout that startup builds, the point
(200, 50) is accepted both for slot 0 and for slot 1, and the corner (200, 120) for the four
slots 0, 1, 4 and 5. -/
theorem shared_edge_point_hits_two_slots :
    ((programStartup [11, 12, 13] noDraws initialGame).dstImgCoordsOriginal.map
        (mouseWithinRectBound { button := SDL_BUTTON_LEFT, x := 200, y := 50 })).take 2 =
      [true, true] ∧
    ((List.range 16).filter (fun i =>
        ((programStartup [11, 12, 13] noDraws initialGame).dstImgCoordsOriginal[i]?.map
          (mouseWithinRectBound { button := SDL_BUTTON_LEFT, x := 200, y := 120 })) =
        some true)) = [0, 1, 4, 5] := by
  decide

/-- C11: for a library of length `L ≥ 1` (one element of draws per step, the last one being
`last`) and a current index 0, in the Play or the Transition phase: after any number
`k < L` of consecutive advance steps the index is `k` and the library is untouched, and
after the `L`-th step the index is 0 again and the library is the shuffle of that step.  The
library is thus shuffled exactly once, on the `L`-th step. -/
theorem advance_wraps_after_all_puzzles (loaded : List Texture) (rnds : List ShuffleDraws)
    (last : ShuffleDraws) (g : Game)
    (hp : g.programState = ProgramState.PLAY ∨ g.programState = ProgramState.TRANSITION)
    (hc : g.puzzleCurrent = 0)
    (hL : (rnds ++ [last]).length = g.puzzleTextures.length) :
    (∀ k, k ≤ rnds.length →
      ∃ gk, advanceRun loaded ((rnds ++ [last]).take k) g = some gk ∧
        gk.puzzleCurrent = (k : Int) ∧ gk.puzzleTextures = g.puzzleTextures) ∧
    ∃ g', advanceRun loaded (rnds ++ [last]) g = some g' ∧
      g'.puzzleCurrent = 0 ∧
      g'.puzzleTextures = shuffle last.puzzles g.puzzleTextures := by
  have hlen : (g.puzzleTextures.length : Int) = (rnds.length : Int) + 1 := by
    rw [← hL]; simp
  constructor
  · intro k hk
    have htk : ((rnds ++ [last]).take k).length = k := by
      rw [List.length_take, List.length_append]
      simp only [List.length_singleton]
      omega
    obtain ⟨gk, e, hcur, htex, -⟩ := advanceRun_climb loaded ((rnds ++ [last]).take k) g hp
      (by rw [htk, hc, hlen]; omega)
    exact ⟨gk, e, by rw [hcur, htk, hc]; omega, htex⟩
  · obtain ⟨g1, e1, hcur1, htex1, hp1⟩ := advanceRun_climb loaded rnds g hp
      (by rw [hc, hlen]; omega)
    obtain ⟨g', e', hcur', htex', -⟩ := advance_one loaded last g1 hp1
    have hwrap : g1.puzzleCurrent + 1 = (g1.puzzleTextures.length : Int) := by
      rw [hcur1, htex1, hc, hlen]; omega
    rw [if_pos hwrap] at hcur' htex'
    refine ⟨g', ?_, hcur', by rw [htex', htex1]⟩
    rw [advanceRun_append, e1]
    show advanceRun loaded [last] g1 = some g'
    rw [advanceRun, e']
    rfl

/-- Witness of C11: three puzzles, three skip keys in the Play phase. -/
theorem advance_wraps_after_all_puzzles_witness :
    (∀ k, k ≤ 2 →
      ∃ gk, advanceRun [11, 12, 13] (([noDraws, noDraws] ++ [nearlySolvedDraws]).take k)
          solvedGame = some gk ∧
        gk.puzzleCurrent = (k : Int) ∧ gk.puzzleTextures = solvedGame.puzzleTextures) ∧
    ∃ g', advanceRun [11, 12, 13] ([noDraws, noDraws] ++ [nearlySolvedDraws]) solvedGame =
        some g' ∧
      g'.puzzleCurrent = 0 ∧
      g'.puzzleTextures = shuffle nearlySolvedDraws.puzzles solvedGame.puzzleTextures :=
  advance_wraps_after_all_puzzles [11, 12, 13] [noDraws, noDraws] nearlySolvedDraws solvedGame
    (Or.inl (by decide)) (by decide) (by decide)

/-- C12: in every Transition-phase state that the program reaches from its initial state
(passes of `main` with their frames, any inputs), the continue key is handled and its frame
drawn without fault; the library is advanced by the advance rule, `dstImgCoords` is
replaced by a permutation of itself, the phase becomes `PLAY` and no tile is selected
(`selectedI = -1`, `moveState = NONE`). -/
theorem continue_advances_and_reshuffles (loaded : List Texture)
    (inputs : List (ShuffleDraws × SDL_Event)) (rnd : ShuffleDraws) (g : Game)
    (hrun : mainRun loaded inputs initialGame = some g)
    (ht : g.programState = ProgramState.TRANSITION) :
    ∃ g', mainLoopPass loaded rnd (SDL_Event.keyUp SDLK_SPACE) g = some g' ∧
      Advanced rnd g g' ∧ g'.dstImgCoords.Perm g.dstImgCoords ∧
      g'.programState = ProgramState.PLAY ∧
      g'.selectedI = -1 ∧ g'.moveState = MoveState.NONE := by
  obtain ⟨hinv, hlib, -⟩ := mainRun_inv loaded inputs initialGame g inv_initialGame
    (fun hc => by cases hc) hrun
  obtain ⟨h0, hlt⟩ := hlib ht
  obtain ⟨hcur, htex, hdst, -, hsI, hms, hps, -⟩ := eventsCheckTransition_continue rnd g
  obtain ⟨hinv', -, -, hperm⟩ := eventsCheckTransition_inv rnd (SDL_Event.keyUp SDLK_SPACE) g
    ht hinv
  have hnone : g.moveState = MoveState.NONE := hinv.2.2.2.2.1 ht
  have hsel : g.selectedI = -1 := by
    rcases hinv.2.2.2.1 with ⟨-, h⟩ | ⟨h, -⟩
    · exact h
    · rw [hnone] at h; cases h
  have hlib' : LibOK (eventsCheckTransition rnd (SDL_Event.keyUp SDLK_SPACE) g) := by
    unfold LibOK
    rw [hcur, htex]
    split_ifs with hw
    · rw [shuffle_length]; omega
    · omega
  obtain ⟨l, hl⟩ := renderUpdate_total _ hinv' hlib'
  refine ⟨eventsCheckTransition rnd (SDL_Event.keyUp SDLK_SPACE) g, ?_, ⟨?_, ?_⟩, hperm, hps,
    hsI.trans hsel, hms.trans hnone⟩
  · simp only [mainLoopPass, ht, hl]
  · intro hnext
    have hw : ¬ (g.puzzleCurrent + 1 = (g.puzzleTextures.length : Int)) := by omega
    rw [if_neg hw] at hcur htex
    exact ⟨hcur, htex⟩
  · intro hnext
    have hw : g.puzzleCurrent + 1 = (g.puzzleTextures.length : Int) := by omega
    rw [if_pos hw] at hcur htex
    exact ⟨hcur, htex⟩

/-- Witness of C12: the Transition state reached by startup with slots 0 and 1 exchanged,
a click on tile 1, a release and a click on tile 0. -/
theorem continue_advances_and_reshuffles_witness :
    ∃ g', mainLoopPass [11, 12, 13] noDraws (SDL_Event.keyUp SDLK_SPACE)
        { solvedGame with programState := ProgramState.TRANSITION } = some g' ∧
      Advanced noDraws { solvedGame with programState := ProgramState.TRANSITION } g' ∧
      g'.dstImgCoords.Perm solvedGame.dstImgCoords ∧
      g'.programState = ProgramState.PLAY ∧
      g'.selectedI = -1 ∧ g'.moveState = MoveState.NONE :=
  continue_advances_and_reshuffles [11, 12, 13] solvingInputs noDraws
    { solvedGame with programState := ProgramState.TRANSITION } (by decide) (by decide)

/-- C19: whatever the loaded puzzles and the sequence of inputs, the loop of `main` runs
from the initial state without an out-of-range access in its handlers, and the state it
reaches has agreeing and valid selection variables: nothing selected with `selectedI = -1`,
or a tile selected with `0 ≤ selectedI < 16`.  With 16 slots in `dstImgCoords`, the
subscript `dstImgCoords[selectedI]` of `renderUpdate` and the `std::swap` with any slot of
the scan are therefore inside the vector whenever a tile is selected. -/
theorem selection_valid_in_reachable_states (loaded : List Texture)
    (inputs : List (ShuffleDraws × SDL_Event)) :
    ∃ g, mainLoop loaded inputs initialGame = some g ∧ SelOK g ∧
      g.dstImgCoords.length = puzzlePiecesTotal ∧
      (g.moveState = MoveState.SELECTED →
        (∃ r, atInt g.dstImgCoords g.selectedI = some r) ∧
        ∀ rectI, rectI < puzzlePiecesTotal →
          ∃ v, swapAt g.dstImgCoords rectI g.selectedI = some v) := by
  obtain ⟨g, e, hinv⟩ := mainLoop_inv loaded inputs initialGame inv_initialGame
  obtain ⟨hd, -, -, hsel, -, -⟩ := hinv
  refine ⟨g, e, hsel, hd, ?_⟩
  intro hm
  rcases hsel with ⟨hn, -⟩ | ⟨-, h0, h16⟩
  · rw [hm] at hn; cases hn
  · refine ⟨atInt_inside _ _ h0 (by omega), ?_⟩
    intro rectI hr
    have hsI : g.selectedI = ((g.selectedI.toNat : Nat) : Int) :=
      (Int.toNat_of_nonneg h0).symm
    have hsl : g.selectedI.toNat < g.dstImgCoords.length := by omega
    have hrl : rectI < g.dstImgCoords.length := by omega
    exact ⟨_, by rw [hsI]; exact swapAt_inside g.dstImgCoords rectI _ hrl hsl⟩

/-- C20: whatever the loaded puzzles, the sequence of inputs and the draws of the shuffles,
the loop of `main` reaches a state `g` from the initial state and handles one more event
`ev` from it, and once startup is over: `dstImgCoordsOriginal` is the reference layout
before and after the event (it is never modified), and `dstImgCoords` is a permutation of it
before and after, 16 slots in which every reference rectangle occurs exactly once.  The
shuffle is an arbitrary permutation: every permutation of the slots is the outcome of
`shufflePuzzlePieces` for suitable draws. -/
theorem board_stays_permutation_of_reference (loaded : List Texture)
    (inputs : List (ShuffleDraws × SDL_Event)) (rnd : ShuffleDraws) (ev : SDL_Event) :
    ∃ g g', mainLoop loaded inputs initialGame = some g ∧
      mainLoopBody loaded rnd ev g = some g' ∧
      (g.programState ≠ ProgramState.STARTUP →
        g.dstImgCoordsOriginal = referenceLayout ∧
        g.dstImgCoords.Perm g.dstImgCoordsOriginal ∧
        g'.dstImgCoordsOriginal = g.dstImgCoordsOriginal ∧
        g'.dstImgCoords.Perm g'.dstImgCoordsOriginal ∧
        g'.dstImgCoords.length = puzzlePiecesTotal ∧
        ∀ r ∈ referenceLayout, g'.dstImgCoords.count r = 1) ∧
      (∀ t : List SDL_Rect, t.Perm g.dstImgCoords →
        ∃ draws, (shufflePuzzlePieces draws g).dstImgCoords = t) := by
  obtain ⟨g, e, hinv⟩ := mainLoop_inv loaded inputs initialGame inv_initialGame
  obtain ⟨g', e', hinv', hstep⟩ := mainLoopBody_inv loaded rnd ev g hinv
  refine ⟨g, g', e, e', ?_, fun t ht => shuffle_reaches g.dstImgCoords t ht⟩
  intro hps
  obtain ⟨horig, hperm⟩ := hinv.2.2.2.2.2 hps
  obtain ⟨ho', hd'⟩ := hstep hps
  have hperm' : g'.dstImgCoords.Perm g'.dstImgCoordsOriginal := by
    rw [ho']; exact hd'.trans hperm
  refine ⟨horig, hperm, ho', hperm', hinv'.1, ?_⟩
  intro r hr
  have hpr : g'.dstImgCoords.Perm referenceLayout := by
    rw [← horig, ← ho']; exact hperm'
  rw [hpr.count_eq]
  exact List.count_eq_one_of_mem referenceLayout_nodup hr

end TilingPuzzleSDL2
